import Mathlib

/-!
Verification of the notebook translation pipeline (`cell_processors.py`,
`llm_client.py`, `notebook_io.py`, `workflow.py`, `config.py`).

Python strings are modelled as `List Char`; the Python string methods used by
the source (`strip`, `startswith`, `endswith`, `split`, `join`, slicing) are
given faithful executable definitions below.  The external language-model
backend and the filesystem/network are modelled as explicit oracle
parameters, so every definition is a pure function of the oracle responses.
-/

namespace NBT

/-- Python strings, modelled as lists of characters. -/
abbrev Str := List Char

/-- Characters removed by Python's `str.strip()` (ASCII whitespace). -/
def pyWS (c : Char) : Bool :=
  c == ' ' || c == '\t' || c == '\n' || c == '\r' || c == '\x0b' || c == '\x0c'

/-- Drop leading whitespace, as Python's `str.lstrip()`. -/
def trimLeft (l : Str) : Str := l.dropWhile pyWS

/-- Python's `str.strip()`: drop leading whitespace, then trailing whitespace. -/
def pyStrip (l : Str) : Str := ((trimLeft l).reverse.dropWhile pyWS).reverse

/-- Python's `s.startswith(p)`. -/
def pyStartsWith : Str → Str → Bool
  | _, [] => true
  | [], _ :: _ => false
  | c :: cs, p :: ps => c == p && pyStartsWith cs ps

/-- Python's `s.endswith(p)`. -/
def pyEndsWith (s p : Str) : Bool := pyStartsWith s.reverse p.reverse

/-- Python's `s[:-n]` (for `n ≤ len(s)`): drop the last `n` characters. -/
def pyDropRight (n : Nat) (l : Str) : Str := l.take (l.length - n)

/-- Python's `s.split(sep)` for a one-character separator: note that the
split of the empty string is `[""]`, exactly as in Python. -/
def pySplitChar (sep : Char) : Str → List Str
  | [] => [[]]
  | c :: cs =>
    match pySplitChar sep cs with
    | [] => if c == sep then [[], []] else [[c]]
    | h :: t => if c == sep then [] :: h :: t else (c :: h) :: t

/-- Python's `sep.join(parts)` for a list of strings. -/
def pyJoin (sep : Str) : List Str → Str
  | [] => []
  | [x] => x
  | x :: y :: t => x ++ sep ++ pyJoin sep (y :: t)

/-- The string literal helper: three backticks. -/
def fence3 : Str := "```".data

/-- The string literal helper: three backticks followed by `python`. -/
def fencePy : Str := "```python".data

/-- The fence-stripping step of `process_code_cell` (cell_processors.py
lines 172-179): strip whitespace, remove a leading ```` ```python ```` or
generic ```` ``` ```` marker, remove a trailing ```` ``` ```` marker, strip
whitespace again. -/
def stripFence (s : Str) : Str :=
  let t := pyStrip s
  let t1 := if pyStartsWith t fencePy then t.drop 9
            else if pyStartsWith t fence3 then t.drop 3
            else t
  let t2 := if pyEndsWith t1 fence3 then pyDropRight 3 t1 else t1
  pyStrip t2

/- Helper lemmas about `dropWhile`, `pyStrip`, `pyStartsWith`. -/

theorem dropWhile_length_le {α : Type} (p : α → Bool) (l : List α) :
    (l.dropWhile p).length ≤ l.length := by
  induction l with
  | nil => simp [List.dropWhile]
  | cons h t ih =>
    by_cases hp : p h
    · simp [List.dropWhile, hp]; omega
    · simp [List.dropWhile, hp]

theorem dropWhile_dropWhile (p : Char → Bool) (l : Str) :
    (l.dropWhile p).dropWhile p = l.dropWhile p := by
  induction l with
  | nil => rfl
  | cons h t ih =>
    by_cases hp : p h
    · simp [List.dropWhile, hp, ih]
    · simp [List.dropWhile, hp]

theorem head?_dropWhile_false (p : Char → Bool) (l : Str) (c : Char)
    (h : (l.dropWhile p).head? = some c) : p c = false := by
  induction l with
  | nil => simp [List.dropWhile] at h
  | cons a t ih =>
    by_cases hp : p a
    · exact ih (by simpa [List.dropWhile, hp] using h)
    · simp [List.dropWhile, hp] at h
      simp [← h]
      simpa using hp

theorem dropWhile_of_head_false (p : Char → Bool) (c : Char) (l : Str)
    (h : p c = false) : (c :: l).dropWhile p = c :: l := by
  simp [List.dropWhile, h]

theorem getLast?_dropWhile (p : Char → Bool) (l : Str)
    (h : l.dropWhile p ≠ []) : (l.dropWhile p).getLast? = l.getLast? := by
  induction l with
  | nil => simp [List.dropWhile] at h
  | cons a t ih =>
    by_cases hp : p a
    · have ht : t.dropWhile p ≠ [] := by simpa [List.dropWhile, hp] using h
      have htne : t ≠ [] := by
        intro he; rw [he] at ht; simp [List.dropWhile] at ht
      rw [List.dropWhile_cons_of_pos (by simpa using hp)]
      rw [ih ht]
      match t, htne with
      | b :: bs, _ => simp [List.getLast?_cons_cons]
    · rw [List.dropWhile_cons_of_neg (by simpa using hp)]

theorem pyStrip_getLast?_false (l : Str) (c : Char)
    (h : (pyStrip l).getLast? = some c) : pyWS c = false := by
  unfold pyStrip at h
  rw [List.getLast?_reverse] at h
  exact head?_dropWhile_false pyWS _ c h

theorem pyStrip_head?_false (l : Str) (c : Char)
    (h : (pyStrip l).head? = some c) : pyWS c = false := by
  unfold pyStrip at h
  rcases hne : (trimLeft l).reverse.dropWhile pyWS with _ | ⟨a, t⟩
  · rw [hne] at h; simp at h
  · rw [hne, List.head?_reverse] at h
    have hlast : ((trimLeft l).reverse.dropWhile pyWS).getLast? =
        (trimLeft l).reverse.getLast? :=
      getLast?_dropWhile pyWS _ (by rw [hne]; simp)
    rw [hne, h, List.getLast?_reverse] at hlast
    exact head?_dropWhile_false pyWS l c hlast.symm

theorem trimLeft_pyStrip (l : Str) : trimLeft (pyStrip l) = pyStrip l := by
  rcases hm : pyStrip l with _ | ⟨c, t⟩
  · rfl
  · have hc : pyWS c = false := pyStrip_head?_false l c (by rw [hm]; rfl)
    exact dropWhile_of_head_false pyWS c t hc

theorem trimLeft_reverse_pyStrip (l : Str) :
    trimLeft (pyStrip l).reverse = (pyStrip l).reverse := by
  rcases hm : (pyStrip l).reverse with _ | ⟨c, t⟩
  · rfl
  · have hlast : (pyStrip l).getLast? = some c := by
      rw [← List.head?_reverse, hm]; rfl
    have hc : pyWS c = false := pyStrip_getLast?_false l c hlast
    exact dropWhile_of_head_false pyWS c t hc

theorem pyStrip_eq_of_trim (l : Str) (h1 : trimLeft l = l)
    (h2 : trimLeft l.reverse = l.reverse) : pyStrip l = l := by
  unfold pyStrip
  rw [h1]
  unfold trimLeft at h2
  rw [h2, List.reverse_reverse]

theorem pyStrip_idem (l : Str) : pyStrip (pyStrip l) = pyStrip l :=
  pyStrip_eq_of_trim _ (trimLeft_pyStrip l) (trimLeft_reverse_pyStrip l)

theorem pyStartsWith_append (s p q : Str)
    (h : pyStartsWith s (p ++ q) = true) : pyStartsWith s p = true := by
  induction p generalizing s with
  | nil => cases s <;> rfl
  | cons a ps ih =>
    match s with
    | [] => simp [pyStartsWith] at h
    | c :: cs =>
      simp only [List.cons_append, pyStartsWith, Bool.and_eq_true] at h ⊢
      exact ⟨h.1, ih cs h.2⟩

theorem pyStartsWith_fencePy_fence3 (s : Str)
    (h : pyStartsWith s fencePy = true) : pyStartsWith s fence3 = true := by
  have : fencePy = fence3 ++ "python".data := by rfl
  rw [this] at h
  exact pyStartsWith_append s fence3 _ h

/-- Python's `str.lower()` (on the ASCII language names used by the label
tables). -/
def lowerStr (s : Str) : Str := s.map Char.toLower

/-- The label table of `get_translation_label` (config.py lines 44-58):
lookup is case-insensitive on the language name and falls back to the
English label. -/
def getTranslationLabel (lang : Str) : Str :=
  let l := lowerStr lang
  if l = "chinese".data then "翻译".data
  else if l = "english".data then "Translation".data
  else if l = "spanish".data then "Traducción".data
  else if l = "french".data then "Traduction".data
  else if l = "german".data then "Übersetzung".data
  else if l = "japanese".data then "翻訳".data
  else if l = "korean".data then "번역".data
  else if l = "russian".data then "Перевод".data
  else if l = "portuguese".data then "Tradução".data
  else if l = "italian".data then "Traduzione".data
  else "Translation".data

/-- The label table of `get_description_label` (config.py lines 60-74). -/
def getDescriptionLabel (lang : Str) : Str :=
  let l := lowerStr lang
  if l = "chinese".data then "图片说明".data
  else if l = "english".data then "Image Description".data
  else if l = "spanish".data then "Descripción de Imagen".data
  else if l = "french".data then "Description d'Image".data
  else if l = "german".data then "Bildbeschreibung".data
  else if l = "japanese".data then "画像説明".data
  else if l = "korean".data then "이미지 설명".data
  else if l = "russian".data then "Описание изображения".data
  else if l = "portuguese".data then "Descrição da Imagem".data
  else if l = "italian".data then "Descrizione dell'Immagine".data
  else "Image Description".data

/-- Raw image bytes. -/
abbrev Bytes := List Nat

/-- The backend language-model responses, as oracles: for each call the
oracle yields either an exception (`Except.error` with the exception
message), a response whose message content is `None` (`Except.ok none`),
or a content string (`Except.ok (some c)`).  Everything the repository
does with those responses is modelled explicitly below. -/
structure LLMApi where
  translateResp : Str → Str → Except Str (Option Str)
  annotateResp : Str → Str → Except Str (Option Str)
  describeResp : Bytes → Str → Except Str (Option Str)

/-- Model of `LLMClient.translate_text` (llm_client.py lines 22-61): returns
`content.strip()` for a truthy content, and the original `text` when the
content is `None` or empty or the call raised. -/
def translateText (api : LLMApi) (text lang : Str) : Str :=
  match api.translateResp text lang with
  | .error _ => text
  | .ok none => text
  | .ok (some c) => if c = [] then text else pyStrip c

/-- Model of `LLMClient.add_code_comments` (llm_client.py lines 63-105): identical
fallback shape, returning the original `code` on exception or falsy
content. -/
def addCodeComments (api : LLMApi) (code lang : Str) : Str :=
  match api.annotateResp code lang with
  | .error _ => code
  | .ok none => code
  | .ok (some c) => if c = [] then code else pyStrip c

/-- Model of `LLMClient.describe_image` (llm_client.py lines 107-150): on exception
returns a bracketed placeholder naming the error, on falsy content a fixed
placeholder, otherwise the stripped content. -/
def describeImage (api : LLMApi) (b : Bytes) (lang : Str) : Str :=
  match api.describeResp b lang with
  | .error e => "[Unable to generate image description: ".data ++ e ++ "]".data
  | .ok none => "[Unable to generate image description]".data
  | .ok (some c) =>
    if c = [] then "[Unable to generate image description]".data else pyStrip c

/-- One HTTP response: status code and body, as returned by `requests.get`
(redirects already followed). -/
structure HttpResp where
  status : Nat
  content : Bytes
deriving DecidableEq

/-- The world `get_image_data` interacts with.  `fsRead p` is `some bytes`
iff `os.path.exists(p)` (reading then yields the bytes); `httpGet u` is
`none` when `requests.get(u)` raises (timeout, connection error);
`b64decode` is `base64.b64decode` (`none` = `binascii.Error`); `absDir p`
is `os.path.dirname(os.path.abspath(p))`. -/
structure ImgEnv where
  fsRead : Str → Option Bytes
  httpGet : Str → Option HttpResp
  b64decode : Str → Option Bytes
  absDir : Str → Str

/-- An externally observable access performed by `get_image_data`: a
network fetch with its timeout in seconds, or a filesystem probe. -/
inductive Access where
  | net (url : Str) (timeoutSecs : Nat)
  | file (path : Str)
deriving DecidableEq

/-- Model of `os.path.join(a, b)` for POSIX paths as used on the notebook
directory. -/
def pyJoinPath (a b : Str) : Str :=
  if pyStartsWith b ("/".data) then b
  else if a = [] then b
  else if pyEndsWith a ("/".data) then a ++ b
  else a ++ "/".data ++ b

/-- Model of `get_image_data` (llm_client.py lines 152-195), returning the list of
accesses it performs together with its result (`Except.error` carries the
exception message).  Dispatch: embedded `data:image/` reference → base64
decode of the chunk after the first comma; `http://`/`https://` reference
→ one fetch with a 30 second timeout, `raise_for_status` failing on 4xx
and 5xx; otherwise a filesystem path, tried as given and then relative to
the notebook directory when an input path is known. -/
def getImageData (env : ImgEnv) (src : Str) (inputPath : Option Str) :
    List Access × Except Str Bytes :=
  if pyStartsWith src ("data:image/".data) then
    match pySplitChar ',' src with
    | _ :: payload :: _ =>
      (match env.b64decode payload with
       | some b => ([], .ok b)
       | none => ([], .error ("binascii.Error: invalid base64".data)))
    | _ => ([], .error ("IndexError: list index out of range".data))
  else if pyStartsWith src ("http://".data) || pyStartsWith src ("https://".data) then
    match env.httpGet src with
    | none => ([.net src 30], .error ("requests exception".data))
    | some r =>
      if 400 ≤ r.status ∧ r.status < 600 then
        ([.net src 30], .error ("requests.exceptions.HTTPError".data))
      else ([.net src 30], .ok r.content)
  else
    match env.fsRead src with
    | some b => ([.file src], .ok b)
    | none =>
      match inputPath with
      | some p =>
        let nbDir := env.absDir p
        let rel := pyJoinPath nbDir src
        (match env.fsRead rel with
         | some b => ([.file src, .file rel], .ok b)
         | none =>
           ([.file src, .file rel],
            .error ("Image file not found: ".data ++ src ++
                    " (tried absolute and relative to ".data ++ nbDir ++ ")".data)))
      | none => ([.file src], .error ("Image file not found: ".data ++ src))

/-- One attempted match of the pattern `!\[([^\]]*)\]\(([^)]+)\)` at the
head of the text; on success yields the two groups and the rest of the
text after the match.  The character classes exclude the following
literal, so the greedy quantifiers match deterministically. -/
def tryImg : Str → Option (Str × Str × Str)
  | '!' :: '[' :: rest =>
    let alt := rest.takeWhile (fun c => !(c == ']'))
    match rest.dropWhile (fun c => !(c == ']')) with
    | ']' :: '(' :: rest2 =>
      let src := rest2.takeWhile (fun c => !(c == ')'))
      (match rest2.dropWhile (fun c => !(c == ')')) with
       | ')' :: rest3 => if src = [] then none else some (alt, src, rest3)
       | _ => none)
    | _ => none
  | _ => none

/-- The scan of `re.findall` for the image pattern: try a match at each
position, restart after the end of each match, advance one character on
failure.  The fuel is the remaining length; each step consumes at least
one character. -/
def findImagesAux : Nat → Str → List (Str × Str)
  | 0, _ => []
  | _ + 1, [] => []
  | fuel + 1, c :: cs =>
    match tryImg (c :: cs) with
    | some (alt, src, rest) => (alt, src) :: findImagesAux fuel rest
    | none => findImagesAux fuel cs

/-- Model of `image_pattern.findall(section_text)` (cell_processors.py line 84). -/
def findImages (s : Str) : List (Str × Str) := findImagesAux s.length s

/-- The section-grouping loop of `process_markdown_cell`
(cell_processors.py lines 55-71), carried out with the pending
`current_section` as accumulator: a blank or `#`-starting line flushes the
pending section; a `#`-starting line additionally opens a new section with
itself as first line; any other line is appended to the pending
section; at the end a nonempty pending section is flushed. -/
def sectionsLoop (cur : List Str) : List Str → List (List Str)
  | [] => if cur.isEmpty then [] else [cur]
  | l :: ls =>
    if (pyStrip l).isEmpty || pyStartsWith l ("#".data) then
      (if cur.isEmpty then [] else [cur]) ++
        sectionsLoop (if (pyStrip l).isEmpty then [] else [l]) ls
    else
      sectionsLoop (cur ++ [l]) ls

/-- The sections computed from the lines of a markdown cell. -/
def groupSections (lines : List Str) : List (List Str) := sectionsLoop [] lines

/-- A line that continues a section: not blank and not a heading. -/
def contLine (l : Str) : Bool :=
  !(pyStrip l).isEmpty && !pyStartsWith l ("#".data)

/-- Modelled from the spec: the section grouping as the claim states it —
blank lines and heading lines start a new section, a heading line is
retained as the first line of the section it opens, blank lines are not
retained, every other line stays in the current section in order. -/
def sectionsSpec : List Str → List (List Str)
  | [] => []
  | l :: ls =>
    if (pyStrip l).isEmpty then sectionsSpec ls
    else (l :: ls.takeWhile contLine) :: sectionsSpec (ls.dropWhile contLine)
termination_by l => l.length
decreasing_by
  · simp
  · simp only [List.length_cons]
    exact Nat.lt_succ_of_le (dropWhile_length_le _ _)

/-- A notebook cell's `source` field: either a single text blob or a list
of line strings, as accepted by the nbformat schema. -/
inductive CellSource where
  | text (s : Str)
  | lines (ls : List Str)
deriving DecidableEq

/-- The normalization at cell_processors.py lines 49-52 and 162-165:
`''.join(source)` for a list, the blob itself otherwise. -/
def joinSource : CellSource → Str
  | .text s => s
  | .lines ls => ls.flatten

/-- One notebook cell: its `cell_type` tag and its `source`.  The remaining
metadata is carried through `deepcopy` untouched and is not modelled. -/
structure Cell where
  cellType : Str
  source : CellSource
deriving DecidableEq

/-- The lines appended for one image match inside a section
(cell_processors.py lines 85-97): on successful resolution, a blank line,
the bolded description label, and the description; on a resolution
failure the whole block is skipped (the exception is caught and logged). -/
def imageBlock (api : LLMApi) (env : ImgEnv) (lang inputPath : Str)
    (m : Str × Str) : List Str :=
  match (getImageData env m.2 (some inputPath)).2 with
  | .ok b =>
    [[], "**".data ++ getDescriptionLabel lang ++ "：**".data,
     describeImage api b lang]
  | .error _ => []

/-- The output lines of one section (cell_processors.py lines 74-115): the
original section lines, then the image description blocks, then — when the
section has a line that is non-blank and does not start with `!` — a
translation block, then a trailing blank line.  An empty section is
skipped entirely (`continue`). -/
def sectionOut (api : LLMApi) (env : ImgEnv) (lang inputPath : Str)
    (sec : List Str) : List Str :=
  if sec.isEmpty then []
  else
    let sectionText := pyJoin ("\n".data) sec
    let imgLines :=
      ((findImages sectionText).map (imageBlock api env lang inputPath)).flatten
    let transLines :=
      if sec.any (fun l => !(pyStrip l).isEmpty && !pyStartsWith l ("!".data)) then
        [[], "**".data ++ getTranslationLabel lang ++ "：**".data,
         translateText api sectionText lang]
      else []
    sec ++ imgLines ++ transLines ++ [[]]

/-- The `new_source_lines` computed by `process_markdown_cell` for a given
cell source. -/
def markdownNewLines (api : LLMApi) (env : ImgEnv) (lang inputPath : Str)
    (source : CellSource) : List Str :=
  let sourceLines := pySplitChar '\n' (joinSource source)
  ((groupSections sourceLines).map (sectionOut api env lang inputPath)).flatten

/-- The cell produced by `process_markdown_cell` from a markdown cell: a
deep copy whose `source` is replaced by the new line list
(cell_processors.py line 118). -/
def markdownTransform (api : LLMApi) (env : ImgEnv) (lang inputPath : Str)
    (c : Cell) : Cell :=
  { c with source := .lines (markdownNewLines api env lang inputPath c.source) }

/-- The cell produced by `process_code_cell` from a code cell: the joined
code text is sent to `add_code_comments` and the response is
fence-stripped; the stored source is a single string
(cell_processors.py lines 161-181).  The surrounding `except` branch
(line 183) is unreachable here because `add_code_comments` catches its own
exceptions and returns the original code text. -/
def codeTransform (api : LLMApi) (lang : Str) (c : Cell) : Cell :=
  { c with source := .text (stripFence (addCodeComments api (joinSource c.source) lang)) }

/-- What one pipeline pass does to the cell at a given position, by cell
type: markdown and code cells are transformed, any other cell is copied
unchanged. -/
def transformCell (api : LLMApi) (env : ImgEnv) (lang inputPath : Str)
    (c : Cell) : Cell :=
  if c.cellType = "markdown".data then markdownTransform api env lang inputPath c
  else if c.cellType = "code".data then codeTransform api lang c
  else c

/-- The `AgentState` of state.py, with the notebook content reduced to its
cell list. -/
structure AgentState where
  inputPath : Str
  outputPath : Str
  cells : List Cell
  processedCells : List Cell
  targetLanguage : Str
  currentCellIndex : Nat
  totalCells : Nat
  errorMessage : Option Str
deriving DecidableEq

/-- Python truthiness of the `error_message` field, as tested by
`state.get("error_message")`: an absent/None message and the empty string
are falsy. -/
def errTruthy : Option Str → Bool
  | none => false
  | some e => !e.isEmpty

/-- Model of `process_markdown_cell` (cell_processors.py lines 14-131): an
out-of-range index or a non-markdown cell records an error and changes
nothing else; otherwise the transformed copy is appended and the index
advances by one. -/
def processMarkdownCell (api : LLMApi) (env : ImgEnv) (s : AgentState) :
    AgentState :=
  match s.cells.get? s.currentCellIndex with
  | none => { s with errorMessage := some ("Cell index out of range".data) }
  | some cell =>
    if cell.cellType = "markdown".data then
      { s with
        processedCells := s.processedCells ++
          [markdownTransform api env s.targetLanguage s.inputPath cell],
        currentCellIndex := s.currentCellIndex + 1 }
    else
      { s with errorMessage := some ("Expected markdown cell, got ".data ++ cell.cellType) }

/-- Model of `process_code_cell` (cell_processors.py lines 133-199). -/
def processCodeCell (api : LLMApi) (s : AgentState) : AgentState :=
  match s.cells.get? s.currentCellIndex with
  | none => { s with errorMessage := some ("Cell index out of range".data) }
  | some cell =>
    if cell.cellType = "code".data then
      { s with
        processedCells := s.processedCells ++
          [codeTransform api s.targetLanguage cell],
        currentCellIndex := s.currentCellIndex + 1 }
    else
      { s with errorMessage := some ("Expected code cell, got ".data ++ cell.cellType) }

/-- Model of `skip_unsupported_cell` (cell_processors.py lines 259-287): copies the
current cell as-is and advances; with an out-of-range index it returns the
state unchanged. -/
def skipUnsupportedCell (s : AgentState) : AgentState :=
  match s.cells.get? s.currentCellIndex with
  | none => s
  | some cell =>
    { s with processedCells := s.processedCells ++ [cell],
             currentCellIndex := s.currentCellIndex + 1 }

/-- The routing decisions `route_cell_processing` can return. -/
inductive Route where
  | endRoute
  | rebuild
  | markdown
  | code
  | skip
deriving DecidableEq

/-- The message recorded when indexing the cell list raises inside the
router's `try` block. -/
def routeErrMsg : Str := "Error in routing: list index out of range".data

/-- Model of `route_cell_processing` (cell_processors.py lines 201-257).  It both
routes and mutates: at an unsupported cell it appends the copied cell,
advances the index, and then routes on the next cell — to `rebuild` at
document end, to the matching processor for a supported next cell, and to
`skip_unsupported_cell` when the next cell is unsupported too. -/
def routeCellProcessing (s : AgentState) : AgentState × Route :=
  if errTruthy s.errorMessage then (s, .endRoute)
  else if s.totalCells ≤ s.currentCellIndex then (s, .rebuild)
  else
    match s.cells.get? s.currentCellIndex with
    | none => ({ s with errorMessage := some routeErrMsg }, .endRoute)
    | some cell =>
      if cell.cellType = "markdown".data then (s, .markdown)
      else if cell.cellType = "code".data then (s, .code)
      else
        let s1 := { s with processedCells := s.processedCells ++ [cell],
                           currentCellIndex := s.currentCellIndex + 1 }
        if s1.totalCells ≤ s1.currentCellIndex then (s1, .rebuild)
        else
          match s1.cells.get? s1.currentCellIndex with
          | none => ({ s1 with errorMessage := some routeErrMsg }, .endRoute)
          | some next =>
            if next.cellType = "markdown".data then (s1, .markdown)
            else if next.cellType = "code".data then (s1, .code)
            else (s1, .skip)

/-- Dispatch of the workflow graph (workflow.py): each route name invokes
the corresponding node. -/
def applyRoute (api : LLMApi) (env : ImgEnv) (r : Route) (s : AgentState) :
    AgentState :=
  match r with
  | .markdown => processMarkdownCell api env s
  | .code => processCodeCell api s
  | .skip => skipUnsupportedCell s
  | .endRoute => s
  | .rebuild => s

/-- The external scheduler loop: re-evaluate the router after every node,
stopping at `END` or at the rebuild terminal (fuel-indexed; each continuing
iteration advances the index by at least one). -/
def runPipeline (api : LLMApi) (env : ImgEnv) : Nat → AgentState → AgentState
  | 0, s => s
  | fuel + 1, s =>
    let p := routeCellProcessing s
    match p.2 with
    | .endRoute => p.1
    | .rebuild => p.1
    | r => runPipeline api env fuel (applyRoute api env r p.1)

/-- The state after `load_and_parse_notebook` succeeds (notebook_io.py
lines 35-42): empty output sequence, index 0, total cell count taken from
the document. -/
def initState (cells : List Cell) (lang inputPath : Str) : AgentState :=
  { inputPath := inputPath
    outputPath := []
    cells := cells
    processedCells := []
    targetLanguage := lang
    currentCellIndex := 0
    totalCells := cells.length
    errorMessage := none }

/-- The cell sequence of the document written by `rebuild_notebook`
(notebook_io.py lines 55-92): it refuses to run when an error is recorded,
and otherwise replaces the document's cells with the processed cells. -/
def outputCells (s : AgentState) : Option (List Cell) :=
  if errTruthy s.errorMessage then none else some s.processedCells

/- Section grouping: the accumulator loop agrees with the declarative
grouping of the spec. -/

theorem sectionsLoop_eq (ls : List Str) : ∀ cur : List Str,
    sectionsLoop cur ls =
      if cur.isEmpty then sectionsSpec ls
      else (cur ++ ls.takeWhile contLine) :: sectionsSpec (ls.dropWhile contLine) := by
  induction ls with
  | nil =>
    intro cur
    cases cur <;> simp [sectionsLoop, sectionsSpec]
  | cons l ls ih =>
    intro cur
    by_cases hb : (pyStrip l).isEmpty
    · have hc : contLine l = false := by simp [contLine, hb]
      simp only [sectionsLoop, hb, Bool.true_or, if_true, ih,
        List.isEmpty_nil, List.takeWhile_cons, List.dropWhile_cons, hc,
        Bool.false_eq_true, if_false, sectionsSpec]
      cases cur <;> simp [sectionsSpec, hb]
    · by_cases hh : pyStartsWith l ("#".data)
      · have hc : contLine l = false := by simp [contLine, hh]
        simp only [sectionsLoop, hb, hh, Bool.false_or, if_true, ih]
        cases cur <;>
          simp [sectionsSpec, hb, List.takeWhile_cons, List.dropWhile_cons, hc]
      · have hc : contLine l = true := by simp [contLine, hb, hh]
        simp only [sectionsLoop, hb, hh, Bool.false_or, Bool.false_eq_true,
          if_false, ih]
        cases cur <;>
          simp [sectionsSpec, hb, List.takeWhile_cons, List.dropWhile_cons, hc]

/-- Claim C5: the section grouping computed by the markdown processor is
exactly the grouping the spec describes — a new section starts at every
blank line and at every heading line, a heading line is retained as the
first line of the section it opens, blank lines are retained nowhere, and
every other line stays in the current section in original order. -/
theorem markdown_section_grouping_correct (lines : List Str) :
    groupSections lines = sectionsSpec lines := by
  simpa [groupSections] using sectionsLoop_eq lines []

/- Fence stripping: helper lemmas. -/

theorem pyStartsWith_self_append (p rest : Str) :
    pyStartsWith (p ++ rest) p = true := by
  induction p with
  | nil => cases rest <;> rfl
  | cons a ps ih => simp [pyStartsWith, ih]

theorem pyEndsWith_append_self (x p : Str) : pyEndsWith (x ++ p) p = true := by
  unfold pyEndsWith
  rw [List.reverse_append]
  exact pyStartsWith_self_append p.reverse x.reverse

theorem pyDropRight_append (x p : Str) (n : Nat) (h : p.length = n) :
    pyDropRight n (x ++ p) = x := by
  unfold pyDropRight
  have h2 : (x ++ p).length - n = x.length := by simp [← h]
  rw [h2]
  exact List.take_left x p

theorem dropWhile_append_of_ne_nil (p : Char → Bool) (l m : Str)
    (h : l.dropWhile p ≠ []) :
    (l ++ m).dropWhile p = l.dropWhile p ++ m := by
  induction l with
  | nil => simp at h
  | cons a t ih =>
    by_cases hp : p a
    · rw [List.cons_append, List.dropWhile_cons_of_pos (by simpa using hp),
        List.dropWhile_cons_of_pos (by simpa using hp)]
      exact ih (by simpa [List.dropWhile_cons_of_pos, hp] using h)
    · rw [List.cons_append, List.dropWhile_cons_of_neg (by simpa using hp),
        List.dropWhile_cons_of_neg (by simpa using hp), List.cons_append]

theorem dropWhile_append_nil (p : Char → Bool) (l m : Str)
    (h : l.dropWhile p = []) (hm : m.dropWhile p = []) :
    (l ++ m).dropWhile p = [] := by
  induction l with
  | nil => simpa using hm
  | cons a t ih =>
    by_cases hp : p a
    · rw [List.cons_append, List.dropWhile_cons_of_pos (by simpa using hp)]
      exact ih (by simpa [List.dropWhile_cons_of_pos, hp] using h)
    · rw [List.dropWhile_cons_of_neg (by simpa using hp)] at h
      simp at h

theorem pyStrip_cons_ws (a : Char) (l : Str) (h : pyWS a = true) :
    pyStrip (a :: l) = pyStrip l := by
  unfold pyStrip trimLeft
  rw [List.dropWhile_cons_of_pos (by simpa using h)]

theorem pyStrip_concat_ws (l : Str) (a : Char) (h : pyWS a = true) :
    pyStrip (l ++ [a]) = pyStrip l := by
  unfold pyStrip
  by_cases hl : trimLeft l = []
  · have ha : List.dropWhile pyWS [a] = [] := by
      rw [List.dropWhile_cons_of_pos (by simpa using h)]
      rfl
    have h2 : trimLeft (l ++ [a]) = [] := by
      unfold trimLeft at hl ⊢
      exact dropWhile_append_nil pyWS l [a] hl ha
    rw [h2, hl]
  · have h2 : trimLeft (l ++ [a]) = trimLeft l ++ [a] := by
      unfold trimLeft at hl ⊢
      exact dropWhile_append_of_ne_nil pyWS l [a] hl
    rw [h2, List.reverse_append]
    simp only [List.reverse_cons, List.reverse_nil, List.nil_append,
      List.cons_append, List.nil_append]
    rw [List.dropWhile_cons_of_pos (by simpa using h)]

theorem pyStrip_eq_self_of_ends (l : Str)
    (h1 : ∀ x, l.head? = some x → pyWS x = false)
    (h2 : ∀ x, l.getLast? = some x → pyWS x = false) : pyStrip l = l := by
  apply pyStrip_eq_of_trim
  · cases l with
    | nil => rfl
    | cons c t => exact dropWhile_of_head_false pyWS c t (h1 c rfl)
  · rcases hr : l.reverse with _ | ⟨c, t⟩
    · unfold trimLeft
      rfl
    · have hgl : l.getLast? = some c := by
        rw [← List.head?_reverse, hr]
        rfl
      unfold trimLeft
      exact dropWhile_of_head_false pyWS c t (h2 c hgl)

theorem not_pyStartsWith_fencePy_nl (u : Str) :
    pyStartsWith (fence3 ++ ('\n' :: u)) fencePy = false := by
  have h1 : fence3 ++ ('\n' :: u) = '`' :: '`' :: '`' :: '\n' :: u := rfl
  have h2 : fencePy = '`' :: '`' :: '`' :: 'p' :: "ython".data := rfl
  have h3 : ('\n' == 'p') = false := rfl
  rw [h1, h2]
  simp [pyStartsWith, h3]

/-- Claim C7 counterexample: for the language-tagged fence
```` ```javascript ```` the claimed stripping fails — only the three
backticks are removed and the residue `javascript` remains in the stored
source. -/
def jsWrapped : Str := "```javascript\nlet x = 1;\n```".data

/-- Claim C7 is false as stated at the input `jsWrapped`: stripping leaves
the language tag `javascript` in the result instead of producing the bare
code `let x = 1;`. -/
theorem code_fence_language_tag_counterexample :
    stripFence jsWrapped = "javascript\nlet x = 1;".data ∧
    pyStartsWith (stripFence jsWrapped) ("javascript".data) = true ∧
    stripFence jsWrapped ≠ "let x = 1;".data := by
  refine ⟨by decide, by decide, by decide⟩

/-- Claim C7 (amended): the Code Cell Processor strips a leading
```` ```python ```` fence or a leading generic ```` ``` ```` fence and a
trailing ```` ``` ```` fence, then trims surrounding whitespace; for the
`python` tag and for untagged fences no fence residue remains, but a fence
with any other language tag only loses its backticks (the tag text
remains, as the counterexample shows). -/
theorem code_fence_stripping_amended (c : Str) (hc : pyStrip c = c) :
    stripFence (fencePy ++ ('\n' :: c) ++ ('\n' :: fence3)) = c ∧
    stripFence (fence3 ++ ('\n' :: c) ++ ('\n' :: fence3)) = c := by
  have hnl : pyWS '\n' = true := rfl
  constructor
  · have hw : pyStrip (fencePy ++ ('\n' :: c) ++ ('\n' :: fence3)) =
        fencePy ++ ('\n' :: c) ++ ('\n' :: fence3) := by
      apply pyStrip_eq_self_of_ends
      · intro x hx
        have : (fencePy ++ ('\n' :: c) ++ ('\n' :: fence3)).head? = some '`' := rfl
        rw [this] at hx
        cases hx
        rfl
      · intro x hx
        have : (fencePy ++ ('\n' :: c) ++ ('\n' :: fence3)).getLast? = some '`' := by
          rw [← List.head?_reverse, List.reverse_append]
          rfl
        rw [this] at hx
        cases hx
        rfl
    have hassoc : fencePy ++ ('\n' :: c) ++ ('\n' :: fence3) =
        fencePy ++ (('\n' :: c) ++ ('\n' :: fence3)) := by
      rw [List.append_assoc]
    have hstart : pyStartsWith (fencePy ++ ('\n' :: c) ++ ('\n' :: fence3))
        fencePy = true := by
      rw [hassoc]
      exact pyStartsWith_self_append fencePy _
    have hdrop : (fencePy ++ ('\n' :: c) ++ ('\n' :: fence3)).drop 9 =
        ('\n' :: c) ++ ('\n' :: fence3) := by
      rw [hassoc]
      exact List.drop_left' rfl
    have hsplit : ('\n' :: c) ++ ('\n' :: fence3) =
        (('\n' :: c) ++ ['\n']) ++ fence3 := by
      simp
    have hends : pyEndsWith (('\n' :: c) ++ ('\n' :: fence3)) fence3 = true := by
      rw [hsplit]
      exact pyEndsWith_append_self _ fence3
    have hdr : pyDropRight 3 (('\n' :: c) ++ ('\n' :: fence3)) =
        ('\n' :: c) ++ ['\n'] := by
      rw [hsplit]
      exact pyDropRight_append _ fence3 3 rfl
    show pyStrip _ = c
    rw [hw, hstart]
    simp only [if_true]
    rw [hdrop, hends]
    simp only [if_true]
    rw [hdr]
    have : ('\n' :: c) ++ ['\n'] = '\n' :: (c ++ ['\n']) := rfl
    rw [this, pyStrip_cons_ws _ _ hnl, pyStrip_concat_ws _ _ hnl, hc]
  · have hw : pyStrip (fence3 ++ ('\n' :: c) ++ ('\n' :: fence3)) =
        fence3 ++ ('\n' :: c) ++ ('\n' :: fence3) := by
      apply pyStrip_eq_self_of_ends
      · intro x hx
        have : (fence3 ++ ('\n' :: c) ++ ('\n' :: fence3)).head? = some '`' := rfl
        rw [this] at hx
        cases hx
        rfl
      · intro x hx
        have : (fence3 ++ ('\n' :: c) ++ ('\n' :: fence3)).getLast? = some '`' := by
          rw [← List.head?_reverse, List.reverse_append]
          rfl
        rw [this] at hx
        cases hx
        rfl
    have hassoc : fence3 ++ ('\n' :: c) ++ ('\n' :: fence3) =
        fence3 ++ ('\n' :: (c ++ ('\n' :: fence3))) := by
      simp
    have hstartPy : pyStartsWith (fence3 ++ ('\n' :: c) ++ ('\n' :: fence3))
        fencePy = false := by
      rw [hassoc]
      exact not_pyStartsWith_fencePy_nl _
    have hstart3 : pyStartsWith (fence3 ++ ('\n' :: c) ++ ('\n' :: fence3))
        fence3 = true := by
      rw [hassoc]
      exact pyStartsWith_self_append fence3 _
    have hdrop : (fence3 ++ ('\n' :: c) ++ ('\n' :: fence3)).drop 3 =
        '\n' :: (c ++ ('\n' :: fence3)) := by
      rw [hassoc]
      exact List.drop_left' rfl
    have hsplit : '\n' :: (c ++ ('\n' :: fence3)) =
        (('\n' :: c) ++ ['\n']) ++ fence3 := by
      simp
    have hends : pyEndsWith ('\n' :: (c ++ ('\n' :: fence3))) fence3 = true := by
      rw [hsplit]
      exact pyEndsWith_append_self _ fence3
    have hdr : pyDropRight 3 ('\n' :: (c ++ ('\n' :: fence3))) =
        ('\n' :: c) ++ ['\n'] := by
      rw [hsplit]
      exact pyDropRight_append _ fence3 3 rfl
    show pyStrip _ = c
    rw [hw, hstartPy]
    simp only [Bool.false_eq_true, if_false]
    rw [hstart3]
    simp only [if_true]
    rw [hdrop, hends]
    simp only [if_true]
    rw [hdr]
    have : ('\n' :: c) ++ ['\n'] = '\n' :: (c ++ ['\n']) := rfl
    rw [this, pyStrip_cons_ws _ _ hnl, pyStrip_concat_ws _ _ hnl, hc]

/-- Witness for the amended fence-stripping theorem at the concrete body
`x = 1`. -/
theorem code_fence_stripping_amended_witness :
    stripFence (fencePy ++ ('\n' :: ("x = 1".data)) ++ ('\n' :: fence3)) =
      "x = 1".data ∧
    stripFence (fence3 ++ ('\n' :: ("x = 1".data)) ++ ('\n' :: fence3)) =
      "x = 1".data :=
  code_fence_stripping_amended ("x = 1".data) (by decide)

/-- Claim C8 counterexample input: a Gateway response whose fence-stripped
output still begins with a fence marker. -/
def c8input : Str := "```\n```python x".data

/-- Claim C8 is false as stated: `stripFence c8input` is itself an output
of the fence-stripping step, yet stripping it again changes it. -/
theorem fence_strip_not_idempotent_counterexample :
    stripFence c8input = "```python x".data ∧
    stripFence (stripFence c8input) = "x".data ∧
    stripFence (stripFence c8input) ≠ stripFence c8input := by
  refine ⟨by decide, by decide, by decide⟩

/-- Every output of the fence-stripping step is whitespace-stripped. -/
theorem pyStrip_stripFence (t : Str) :
    pyStrip (stripFence t) = stripFence t := by
  unfold stripFence
  exact pyStrip_idem _

/-- Claim C8 (amended): fence stripping is idempotent on an output that
does not itself still begin or end with a fence marker ```` ``` ````; an
output that does retain a fence marker is stripped further on
reapplication (see the counterexample). -/
theorem fence_strip_idempotent_amended (t : Str)
    (h1 : pyStartsWith (stripFence t) fence3 = false)
    (h2 : pyEndsWith (stripFence t) fence3 = false) :
    stripFence (stripFence t) = stripFence t := by
  have hpy : pyStartsWith (stripFence t) fencePy = false := by
    cases hfp : pyStartsWith (stripFence t) fencePy with
    | false => rfl
    | true =>
      have := pyStartsWith_fencePy_fence3 _ hfp
      rw [h1] at this
      cases this
  have hs : pyStrip (stripFence t) = stripFence t := pyStrip_stripFence t
  conv_lhs => rw [stripFence]
  rw [hs, hpy, h1]
  simp only [Bool.false_eq_true, if_false]
  rw [h2]
  simp only [Bool.false_eq_true, if_false]
  exact hs

/-- Witness for the amended idempotence theorem at a concrete stripped
output. -/
theorem fence_strip_idempotent_amended_witness :
    stripFence (stripFence ("print(1)".data)) = stripFence ("print(1)".data) :=
  fence_strip_idempotent_amended ("print(1)".data) (by decide) (by decide)

/- Concrete oracle instances for witnesses and counterexamples. -/

/-- A backend on which every call raises. -/
def noApi : LLMApi where
  translateResp := fun _ _ => .error ("fail".data)
  annotateResp := fun _ _ => .error ("fail".data)
  describeResp := fun _ _ => .error ("fail".data)

/-- A world with no files, no network, and no valid base64 payloads. -/
def emptyEnv : ImgEnv where
  fsRead := fun _ => none
  httpGet := fun _ => none
  b64decode := fun _ => none
  absDir := fun _ => []

/-- A code cell whose source string ends in a newline. -/
def c2cell : Cell := { cellType := "code".data, source := .text ("x = 1\n".data) }

/-- A one-cell state holding `c2cell`. -/
def c2state : AgentState := initState [c2cell] ("Chinese".data) ("nb.ipynb".data)

/-- Claim C2 is false as stated: with the annotate call failing, the cell
appended by `process_code_cell` carries the source `"x = 1"` — the
trailing newline of the original `"x = 1\n"` is gone, so the original
source is not preserved exactly.  (`add_code_comments` catches the
failure itself and returns the joined code text, which then passes
through fence stripping and whitespace trimming.) -/
theorem code_fallback_counterexample :
    (processCodeCell noApi c2state).processedCells =
      [{ cellType := "code".data, source := CellSource.text ("x = 1".data) }] ∧
    CellSource.text ("x = 1".data) ≠ c2cell.source := by
  refine ⟨by decide, by decide⟩

/-- Claim C2 (amended): when the Gateway's annotate call fails, the
failure is caught inside `add_code_comments`, which returns the joined
original code text; the cell appended to the output therefore carries, as
a single string, the fence-stripped and whitespace-trimmed joined original
source — the original content up to that normalization, but not the
original representation (a list-of-lines source becomes one string) nor
its surrounding whitespace. -/
theorem code_fallback_amended (api : LLMApi) (s : AgentState) (c : Cell)
    (e : Str)
    (hget : s.cells.get? s.currentCellIndex = some c)
    (htype : c.cellType = "code".data)
    (hfail : api.annotateResp (joinSource c.source) s.targetLanguage = .error e) :
    (processCodeCell api s).processedCells =
      s.processedCells ++
        [{ c with source := .text (stripFence (joinSource c.source)) }] ∧
    (processCodeCell api s).currentCellIndex = s.currentCellIndex + 1 ∧
    (processCodeCell api s).errorMessage = s.errorMessage := by
  simp only [processCodeCell, hget, htype, if_true, codeTransform,
    addCodeComments, hfail]
  exact ⟨trivial, trivial, trivial⟩

/-- Witness for the amended code-fallback theorem on the concrete one-cell
state. -/
theorem code_fallback_amended_witness :
    (processCodeCell noApi c2state).processedCells =
      c2state.processedCells ++
        [{ c2cell with
            source := CellSource.text (stripFence (joinSource c2cell.source)) }] ∧
    (processCodeCell noApi c2state).currentCellIndex =
      c2state.currentCellIndex + 1 ∧
    (processCodeCell noApi c2state).errorMessage = c2state.errorMessage :=
  code_fallback_amended noApi c2state c2cell ("fail".data) (by rfl) (by rfl)
    (by rfl)

/- Step equations for the pipeline nodes. -/

theorem processMarkdownCell_eq (api : LLMApi) (env : ImgEnv) (s : AgentState)
    (c : Cell) (hget : s.cells.get? s.currentCellIndex = some c)
    (htype : c.cellType = "markdown".data) :
    processMarkdownCell api env s =
      { s with
        processedCells := s.processedCells ++
          [markdownTransform api env s.targetLanguage s.inputPath c],
        currentCellIndex := s.currentCellIndex + 1 } := by
  simp only [processMarkdownCell, hget, htype, if_true]

theorem processCodeCell_eq (api : LLMApi) (s : AgentState) (c : Cell)
    (hget : s.cells.get? s.currentCellIndex = some c)
    (htype : c.cellType = "code".data) :
    processCodeCell api s =
      { s with
        processedCells := s.processedCells ++ [codeTransform api s.targetLanguage c],
        currentCellIndex := s.currentCellIndex + 1 } := by
  simp only [processCodeCell, hget, htype, if_true]

theorem skipUnsupportedCell_eq (s : AgentState) (c : Cell)
    (hget : s.cells.get? s.currentCellIndex = some c) :
    skipUnsupportedCell s =
      { s with processedCells := s.processedCells ++ [c],
               currentCellIndex := s.currentCellIndex + 1 } := by
  simp only [skipUnsupportedCell, hget]

/-- A raw (unsupported) cell. -/
def rawCell : Cell := { cellType := "raw".data, source := .text [] }

/-- A state whose document is a run of two consecutive raw cells. -/
def c3state : AgentState := initState [rawCell, rawCell] ("Chinese".data) ("nb.ipynb".data)

/-- Claim C3 is false as stated: on a run of two unsupported cells, a
single routing decision copies only the first cell and advances the index
by one — not past the whole run of length two — and defers the second
cell to the external `skip_unsupported_cell` step. -/
theorem router_single_decision_counterexample :
    (routeCellProcessing c3state).1.currentCellIndex = 1 ∧
    (routeCellProcessing c3state).1.processedCells.length = 1 ∧
    (routeCellProcessing c3state).2 = Route.skip ∧
    c3state.cells.length = 2 := by
  refine ⟨by decide, by decide, by decide, by decide⟩

/-- Claim C3 (amended): a routing decision at an unsupported cell copies
exactly that one cell unchanged into the output, advances the index by
one, and then routes on the next position: to the rebuild terminal when
the document is exhausted, and to the external `skip_unsupported_cell`
step when the next cell is unsupported too — so a run of consecutive
unsupported cells is consumed one cell per step, alternating between the
router and the skip node, stopping at a supported cell or document end. -/
theorem router_unsupported_run_amended (s : AgentState) (c : Cell)
    (herr : s.errorMessage = none)
    (hlt : s.currentCellIndex < s.totalCells)
    (hget : s.cells.get? s.currentCellIndex = some c)
    (hm : c.cellType ≠ "markdown".data)
    (hc : c.cellType ≠ "code".data) :
    (routeCellProcessing s).1.processedCells = s.processedCells ++ [c] ∧
    (routeCellProcessing s).1.currentCellIndex = s.currentCellIndex + 1 ∧
    (s.totalCells ≤ s.currentCellIndex + 1 →
      (routeCellProcessing s).2 = Route.rebuild) ∧
    (∀ c2 : Cell, s.currentCellIndex + 1 < s.totalCells →
      s.cells.get? (s.currentCellIndex + 1) = some c2 →
      c2.cellType ≠ "markdown".data → c2.cellType ≠ "code".data →
      (routeCellProcessing s).2 = Route.skip) := by
  have hnle : ¬ s.totalCells ≤ s.currentCellIndex := Nat.not_le.mpr hlt
  by_cases hend : s.totalCells ≤ s.currentCellIndex + 1
  · have heq : routeCellProcessing s =
        ({ s with processedCells := s.processedCells ++ [c],
                  currentCellIndex := s.currentCellIndex + 1 }, Route.rebuild) := by
      simp only [routeCellProcessing, herr, errTruthy, Bool.false_eq_true,
        if_false, if_neg hnle, hget, if_neg hm, if_neg hc, if_pos hend]
    rw [heq]
    refine ⟨rfl, rfl, fun _ => rfl, ?_⟩
    intro c2 hlt2 _ _ _
    omega
  · rcases hget2 : s.cells.get? (s.currentCellIndex + 1) with _ | c2
    · have heq : routeCellProcessing s =
          ({ s with processedCells := s.processedCells ++ [c],
                    currentCellIndex := s.currentCellIndex + 1,
                    errorMessage := some routeErrMsg }, Route.endRoute) := by
        simp only [routeCellProcessing, herr, errTruthy, Bool.false_eq_true,
          if_false, if_neg hnle, hget, if_neg hm, if_neg hc, if_neg hend, hget2]
      rw [heq]
      refine ⟨rfl, rfl, fun h => absurd h hend, ?_⟩
      intro c2 _ hg
      cases hg
    · by_cases hm2 : c2.cellType = "markdown".data
      · have heq : routeCellProcessing s =
            ({ s with processedCells := s.processedCells ++ [c],
                      currentCellIndex := s.currentCellIndex + 1 }, Route.markdown) := by
          simp only [routeCellProcessing, herr, errTruthy, Bool.false_eq_true,
            if_false, if_neg hnle, hget, if_neg hm, if_neg hc, if_neg hend,
            hget2, if_pos hm2]
        rw [heq]
        refine ⟨rfl, rfl, fun h => absurd h hend, ?_⟩
        intro c2' _ hg hmm _
        cases hg
        exact absurd hm2 hmm
      · by_cases hc2 : c2.cellType = "code".data
        · have heq : routeCellProcessing s =
              ({ s with processedCells := s.processedCells ++ [c],
                        currentCellIndex := s.currentCellIndex + 1 }, Route.code) := by
            simp only [routeCellProcessing, herr, errTruthy, Bool.false_eq_true,
              if_false, if_neg hnle, hget, if_neg hm, if_neg hc, if_neg hend,
              hget2, if_neg hm2, if_pos hc2]
          rw [heq]
          refine ⟨rfl, rfl, fun h => absurd h hend, ?_⟩
          intro c2' _ hg _ hcc
          cases hg
          exact absurd hc2 hcc
        · have heq : routeCellProcessing s =
              ({ s with processedCells := s.processedCells ++ [c],
                        currentCellIndex := s.currentCellIndex + 1 }, Route.skip) := by
            simp only [routeCellProcessing, herr, errTruthy, Bool.false_eq_true,
              if_false, if_neg hnle, hget, if_neg hm, if_neg hc, if_neg hend,
              hget2, if_neg hm2, if_neg hc2]
          rw [heq]
          exact ⟨rfl, rfl, fun h => absurd h hend, fun _ _ _ _ _ => rfl⟩

/-- Witness for the amended router theorem on the two-raw-cell state. -/
theorem router_unsupported_run_amended_witness :
    (routeCellProcessing c3state).1.processedCells =
      c3state.processedCells ++ [rawCell] ∧
    (routeCellProcessing c3state).1.currentCellIndex =
      c3state.currentCellIndex + 1 ∧
    (c3state.totalCells ≤ c3state.currentCellIndex + 1 →
      (routeCellProcessing c3state).2 = Route.rebuild) ∧
    (∀ c2 : Cell, c3state.currentCellIndex + 1 < c3state.totalCells →
      c3state.cells.get? (c3state.currentCellIndex + 1) = some c2 →
      c2.cellType ≠ "markdown".data → c2.cellType ≠ "code".data →
      (routeCellProcessing c3state).2 = Route.skip) :=
  router_unsupported_run_amended c3state rawCell (by rfl) (by decide) (by rfl)
    (by decide) (by decide)

/- The pipeline index invariant. -/

theorem lt_of_get?_eq_some {α : Type} {l : List α} {n : Nat} {a : α}
    (h : l.get? n = some a) : n < l.length := by
  by_contra hn
  rw [List.get?_eq_none.mpr (Nat.le_of_not_lt hn)] at h
  cases h

/-- The ProcessingState invariant of the spec: the current index equals
the length of the output-cell sequence and stays within the document's
cell count. -/
def IndexInv (s : AgentState) : Prop :=
  s.currentCellIndex = s.processedCells.length ∧
  s.currentCellIndex ≤ s.cells.length

/-- What one pipeline step may do to the counters: the index never
decreases, advances by at most one, and the number of appended cells
equals the index advance. -/
def StepOk (s t : AgentState) : Prop :=
  s.currentCellIndex ≤ t.currentCellIndex ∧
  t.currentCellIndex ≤ s.currentCellIndex + 1 ∧
  t.processedCells.length + s.currentCellIndex =
    s.processedCells.length + t.currentCellIndex

theorem processMarkdownCell_inv (api : LLMApi) (env : ImgEnv) (s : AgentState)
    (h : IndexInv s) :
    IndexInv (processMarkdownCell api env s) ∧
      StepOk s (processMarkdownCell api env s) := by
  obtain ⟨h1, h2⟩ := h
  rcases hget : s.cells.get? s.currentCellIndex with _ | c
  · simp only [processMarkdownCell, hget]
    exact ⟨⟨h1, h2⟩, Nat.le_refl _, Nat.le_succ _, rfl⟩
  · have hlt : s.currentCellIndex < s.cells.length := lt_of_get?_eq_some hget
    by_cases htype : c.cellType = "markdown".data
    · rw [processMarkdownCell_eq api env s c hget htype]
      refine ⟨⟨?_, ?_⟩, ?_, ?_, ?_⟩ <;>
        simp only [List.length_append, List.length_cons, List.length_nil] <;>
        omega
    · simp only [processMarkdownCell, hget, if_neg htype]
      exact ⟨⟨h1, h2⟩, Nat.le_refl _, Nat.le_succ _, rfl⟩

theorem processCodeCell_inv (api : LLMApi) (s : AgentState) (h : IndexInv s) :
    IndexInv (processCodeCell api s) ∧ StepOk s (processCodeCell api s) := by
  obtain ⟨h1, h2⟩ := h
  rcases hget : s.cells.get? s.currentCellIndex with _ | c
  · simp only [processCodeCell, hget]
    exact ⟨⟨h1, h2⟩, Nat.le_refl _, Nat.le_succ _, rfl⟩
  · have hlt : s.currentCellIndex < s.cells.length := lt_of_get?_eq_some hget
    by_cases htype : c.cellType = "code".data
    · rw [processCodeCell_eq api s c hget htype]
      refine ⟨⟨?_, ?_⟩, ?_, ?_, ?_⟩ <;>
        simp only [List.length_append, List.length_cons, List.length_nil] <;>
        omega
    · simp only [processCodeCell, hget, if_neg htype]
      exact ⟨⟨h1, h2⟩, Nat.le_refl _, Nat.le_succ _, rfl⟩

theorem skipUnsupportedCell_inv (s : AgentState) (h : IndexInv s) :
    IndexInv (skipUnsupportedCell s) ∧ StepOk s (skipUnsupportedCell s) := by
  obtain ⟨h1, h2⟩ := h
  rcases hget : s.cells.get? s.currentCellIndex with _ | c
  · simp only [skipUnsupportedCell, hget]
    exact ⟨⟨h1, h2⟩, Nat.le_refl _, Nat.le_succ _, rfl⟩
  · have hlt : s.currentCellIndex < s.cells.length := lt_of_get?_eq_some hget
    rw [skipUnsupportedCell_eq s c hget]
    refine ⟨⟨?_, ?_⟩, ?_, ?_, ?_⟩ <;>
      simp only [List.length_append, List.length_cons, List.length_nil] <;>
      omega

/-- The router either leaves the cell counters unchanged or appends
exactly the current cell and advances by one. -/
theorem route_shape (s : AgentState) :
    ((routeCellProcessing s).1.cells = s.cells ∧
     (routeCellProcessing s).1.processedCells = s.processedCells ∧
     (routeCellProcessing s).1.currentCellIndex = s.currentCellIndex) ∨
    (∃ c, s.cells.get? s.currentCellIndex = some c ∧
      (routeCellProcessing s).1.cells = s.cells ∧
      (routeCellProcessing s).1.processedCells = s.processedCells ++ [c] ∧
      (routeCellProcessing s).1.currentCellIndex = s.currentCellIndex + 1) := by
  unfold routeCellProcessing
  by_cases herr : errTruthy s.errorMessage = true
  · simp only [if_pos herr]
    exact Or.inl ⟨by trivial, by trivial, by trivial⟩
  · simp only [if_neg herr]
    by_cases hdone : s.totalCells ≤ s.currentCellIndex
    · simp only [if_pos hdone]
      exact Or.inl ⟨by trivial, by trivial, by trivial⟩
    · simp only [if_neg hdone]
      rcases hget : s.cells.get? s.currentCellIndex with _ | c
      · exact Or.inl ⟨by trivial, by trivial, by trivial⟩
      · by_cases hm : c.cellType = "markdown".data
        · simp only [if_pos hm]
          exact Or.inl ⟨by trivial, by trivial, by trivial⟩
        · simp only [if_neg hm]
          by_cases hc : c.cellType = "code".data
          · simp only [if_pos hc]
            exact Or.inl ⟨by trivial, by trivial, by trivial⟩
          · simp only [if_neg hc]
            by_cases hend : s.totalCells ≤ s.currentCellIndex + 1
            · simp only [if_pos hend]
              exact Or.inr ⟨c, by trivial, by trivial, by trivial, by trivial⟩
            · simp only [if_neg hend]
              rcases hget2 : s.cells.get? (s.currentCellIndex + 1) with _ | c2
              · exact Or.inr ⟨c, by trivial, by trivial, by trivial, by trivial⟩
              · by_cases hm2 : c2.cellType = "markdown".data
                · simp only [if_pos hm2]
                  exact Or.inr ⟨c, by trivial, by trivial, by trivial, by trivial⟩
                · simp only [if_neg hm2]
                  by_cases hc2 : c2.cellType = "code".data
                  · simp only [if_pos hc2]
                    exact Or.inr ⟨c, by trivial, by trivial, by trivial, by trivial⟩
                  · simp only [if_neg hc2]
                    exact Or.inr ⟨c, by trivial, by trivial, by trivial, by trivial⟩

theorem routeCellProcessing_inv (s : AgentState) (h : IndexInv s) :
    IndexInv (routeCellProcessing s).1 ∧ StepOk s (routeCellProcessing s).1 := by
  obtain ⟨h1, h2⟩ := h
  rcases route_shape s with ⟨e1, e2, e3⟩ | ⟨c, hget, e1, e2, e3⟩
  · refine ⟨⟨?_, ?_⟩, ?_, ?_, ?_⟩
    · rw [e3, e2]; exact h1
    · rw [e3, e1]; exact h2
    · rw [e3]
    · rw [e3]; exact Nat.le_succ _
    · rw [e3, e2]
  · have hlt : s.currentCellIndex < s.cells.length := lt_of_get?_eq_some hget
    refine ⟨⟨?_, ?_⟩, ?_, ?_, ?_⟩
    · rw [e3, e2]
      simp only [List.length_append, List.length_cons, List.length_nil]
      omega
    · rw [e3, e1]; omega
    · rw [e3]; exact Nat.le_succ _
    · rw [e3]
    · rw [e3, e2]
      simp only [List.length_append, List.length_cons, List.length_nil]
      omega

theorem runPipeline_inv (api : LLMApi) (env : ImgEnv) (fuel : Nat) :
    ∀ s : AgentState, IndexInv s → IndexInv (runPipeline api env fuel s) := by
  induction fuel with
  | zero => intro s h; exact h
  | succ f ih =>
    intro s h
    have hroute := routeCellProcessing_inv s h
    simp only [runPipeline]
    cases hr : (routeCellProcessing s).2 with
    | endRoute => exact hroute.1
    | rebuild => exact hroute.1
    | markdown => exact ih _ (processMarkdownCell_inv api env _ hroute.1).1
    | code => exact ih _ (processCodeCell_inv api _ hroute.1).1
    | skip => exact ih _ (skipUnsupportedCell_inv _ hroute.1).1

/-- Claim C6: the current cell index equals the length of the output-cell
sequence at every observation point: the invariant holds for the loaded
initial state, every atomic step (the two processors, the skip node, and
the router decision) preserves it, advances the index by at most one and
never decreases it, appends exactly as many cells as the index advances,
keeps the index within the document's cell count, and any number of
scheduler iterations preserves the invariant. -/
theorem index_matches_output_invariant (api : LLMApi) (env : ImgEnv)
    (cells : List Cell) (lang inputPath : Str) (s : AgentState)
    (h : IndexInv s) :
    IndexInv (initState cells lang inputPath) ∧
    (IndexInv (processMarkdownCell api env s) ∧
      StepOk s (processMarkdownCell api env s)) ∧
    (IndexInv (processCodeCell api s) ∧ StepOk s (processCodeCell api s)) ∧
    (IndexInv (skipUnsupportedCell s) ∧ StepOk s (skipUnsupportedCell s)) ∧
    (IndexInv (routeCellProcessing s).1 ∧ StepOk s (routeCellProcessing s).1) ∧
    (∀ fuel, IndexInv (runPipeline api env fuel s)) :=
  ⟨⟨rfl, Nat.zero_le _⟩,
   processMarkdownCell_inv api env s h,
   processCodeCell_inv api s h,
   skipUnsupportedCell_inv s h,
   routeCellProcessing_inv s h,
   fun fuel => runPipeline_inv api env fuel s h⟩

/-- Witness for the invariant theorem on the concrete one-cell state. -/
theorem index_matches_output_invariant_witness :
    IndexInv (initState [rawCell] [] []) ∧
    (IndexInv (processMarkdownCell noApi emptyEnv c3state) ∧
      StepOk c3state (processMarkdownCell noApi emptyEnv c3state)) ∧
    (IndexInv (processCodeCell noApi c3state) ∧
      StepOk c3state (processCodeCell noApi c3state)) ∧
    (IndexInv (skipUnsupportedCell c3state) ∧
      StepOk c3state (skipUnsupportedCell c3state)) ∧
    (IndexInv (routeCellProcessing c3state).1 ∧
      StepOk c3state (routeCellProcessing c3state).1) ∧
    (∀ fuel, IndexInv (runPipeline noApi emptyEnv fuel c3state)) :=
  index_matches_output_invariant noApi emptyEnv [rawCell] [] [] c3state
    (by constructor <;> decide)

/- The pipeline's per-position correctness: every reachable state holds
exactly the transforms of the first `i` cells, in order. -/

/-- A run state that has processed the first `i` cells of the document:
the immutable fields are those of the loaded state, no error is recorded,
and the output sequence is position-by-position the transform of the
input prefix. -/
def Good (api : LLMApi) (env : ImgEnv) (cells : List Cell)
    (lang inputPath : Str) (i : Nat) (s : AgentState) : Prop :=
  s.cells = cells ∧ s.targetLanguage = lang ∧ s.inputPath = inputPath ∧
  s.totalCells = cells.length ∧ s.errorMessage = none ∧
  s.currentCellIndex = i ∧
  s.processedCells = (cells.take i).map (transformCell api env lang inputPath)

theorem Good_init (api : LLMApi) (env : ImgEnv) (cells : List Cell)
    (lang inputPath : Str) :
    Good api env cells lang inputPath 0 (initState cells lang inputPath) :=
  ⟨rfl, rfl, rfl, rfl, rfl, rfl, rfl⟩

theorem Good_append (api : LLMApi) (env : ImgEnv) (cells : List Cell)
    (lang inputPath : Str) (i : Nat) (s : AgentState)
    (hg : Good api env cells lang inputPath i s) (hlt : i < cells.length) :
    Good api env cells lang inputPath (i + 1)
      { s with
        processedCells := s.processedCells ++
          [transformCell api env lang inputPath (cells.get ⟨i, hlt⟩)],
        currentCellIndex := s.currentCellIndex + 1 } := by
  obtain ⟨hc, hlang, hip, htot, herr, hidx, hproc⟩ := hg
  refine ⟨hc, hlang, hip, htot, herr, by rw [hidx], ?_⟩
  show s.processedCells ++ _ = _
  rw [hproc, ← List.take_concat_get cells i hlt, List.concat_eq_append,
    List.map_append]
  rfl

theorem good_step_markdown (api : LLMApi) (env : ImgEnv) (cells : List Cell)
    (lang inputPath : Str) (i : Nat) (s : AgentState)
    (hg : Good api env cells lang inputPath i s) (hlt : i < cells.length)
    (htype : (cells.get ⟨i, hlt⟩).cellType = "markdown".data) :
    Good api env cells lang inputPath (i + 1) (processMarkdownCell api env s) := by
  obtain ⟨hc, hlang, hip, htot, herr, hidx, hproc⟩ := hg
  have hget : s.cells.get? s.currentCellIndex = some (cells.get ⟨i, hlt⟩) := by
    rw [hc, hidx]
    exact List.get?_eq_get hlt
  rw [processMarkdownCell_eq api env s _ hget htype]
  have htf : markdownTransform api env s.targetLanguage s.inputPath
      (cells.get ⟨i, hlt⟩) =
      transformCell api env lang inputPath (cells.get ⟨i, hlt⟩) := by
    simp only [transformCell, if_pos htype, hlang, hip]
  rw [htf]
  exact Good_append api env cells lang inputPath i s
    ⟨hc, hlang, hip, htot, herr, hidx, hproc⟩ hlt

theorem good_step_code (api : LLMApi) (env : ImgEnv) (cells : List Cell)
    (lang inputPath : Str) (i : Nat) (s : AgentState)
    (hg : Good api env cells lang inputPath i s) (hlt : i < cells.length)
    (hm : (cells.get ⟨i, hlt⟩).cellType ≠ "markdown".data)
    (htype : (cells.get ⟨i, hlt⟩).cellType = "code".data) :
    Good api env cells lang inputPath (i + 1) (processCodeCell api s) := by
  obtain ⟨hc, hlang, hip, htot, herr, hidx, hproc⟩ := hg
  have hget : s.cells.get? s.currentCellIndex = some (cells.get ⟨i, hlt⟩) := by
    rw [hc, hidx]
    exact List.get?_eq_get hlt
  rw [processCodeCell_eq api s _ hget htype]
  have htf : codeTransform api s.targetLanguage (cells.get ⟨i, hlt⟩) =
      transformCell api env lang inputPath (cells.get ⟨i, hlt⟩) := by
    simp only [transformCell, if_neg hm, if_pos htype, hlang]
  rw [htf]
  exact Good_append api env cells lang inputPath i s
    ⟨hc, hlang, hip, htot, herr, hidx, hproc⟩ hlt

theorem good_step_skip (api : LLMApi) (env : ImgEnv) (cells : List Cell)
    (lang inputPath : Str) (i : Nat) (s : AgentState)
    (hg : Good api env cells lang inputPath i s) (hlt : i < cells.length)
    (hm : (cells.get ⟨i, hlt⟩).cellType ≠ "markdown".data)
    (hco : (cells.get ⟨i, hlt⟩).cellType ≠ "code".data) :
    Good api env cells lang inputPath (i + 1) (skipUnsupportedCell s) := by
  obtain ⟨hc, hlang, hip, htot, herr, hidx, hproc⟩ := hg
  have hget : s.cells.get? s.currentCellIndex = some (cells.get ⟨i, hlt⟩) := by
    rw [hc, hidx]
    exact List.get?_eq_get hlt
  rw [skipUnsupportedCell_eq s _ hget]
  have htf : cells.get ⟨i, hlt⟩ =
      transformCell api env lang inputPath (cells.get ⟨i, hlt⟩) := by
    simp only [transformCell, if_neg hm, if_neg hco]
  have hga := Good_append api env cells lang inputPath i s
    ⟨hc, hlang, hip, htot, herr, hidx, hproc⟩ hlt
  rw [← htf] at hga
  exact hga

theorem run_from_good (api : LLMApi) (env : ImgEnv) (cells : List Cell)
    (lang inputPath : Str) :
    ∀ (fuel : Nat) (i : Nat) (s : AgentState),
      Good api env cells lang inputPath i s → i ≤ cells.length →
      cells.length - i < fuel →
      Good api env cells lang inputPath cells.length
        (runPipeline api env fuel s) := by
  intro fuel
  induction fuel with
  | zero =>
    intro i s _ _ hf
    omega
  | succ f ih =>
    intro i s hg hle hf
    have hgcopy := hg
    obtain ⟨hc, hlang, hip, htot, herr, hidx, hproc⟩ := hg
    by_cases hdone : cells.length ≤ i
    · have hieq : i = cells.length := Nat.le_antisymm hle hdone
      subst hieq
      have hdone' : s.totalCells ≤ s.currentCellIndex := by
        rw [htot, hidx]
      have heq : routeCellProcessing s = (s, Route.rebuild) := by
        simp only [routeCellProcessing, herr, errTruthy, Bool.false_eq_true,
          if_false, if_pos hdone']
      simp only [runPipeline, heq]
      exact hgcopy
    · have hlt : i < cells.length := Nat.lt_of_not_le hdone
      have hget : s.cells.get? s.currentCellIndex =
          some (cells.get ⟨i, hlt⟩) := by
        rw [hc, hidx]
        exact List.get?_eq_get hlt
      have hnle : ¬ s.totalCells ≤ s.currentCellIndex := by
        rw [htot, hidx]
        omega
      by_cases hm : (cells.get ⟨i, hlt⟩).cellType = "markdown".data
      · have heq : routeCellProcessing s = (s, Route.markdown) := by
          simp only [routeCellProcessing, herr, errTruthy, Bool.false_eq_true,
            if_false, if_neg hnle, hget, if_pos hm]
        simp only [runPipeline, heq]
        exact ih (i + 1) _
          (good_step_markdown api env cells lang inputPath i s hgcopy hlt hm)
          (by omega) (by omega)
      · by_cases hcode : (cells.get ⟨i, hlt⟩).cellType = "code".data
        · have heq : routeCellProcessing s = (s, Route.code) := by
            simp only [routeCellProcessing, herr, errTruthy, Bool.false_eq_true,
              if_false, if_neg hnle, hget, if_neg hm, if_pos hcode]
          simp only [runPipeline, heq]
          exact ih (i + 1) _
            (good_step_code api env cells lang inputPath i s hgcopy hlt hm hcode)
            (by omega) (by omega)
        · have hgs1 : Good api env cells lang inputPath (i + 1)
              { s with
                processedCells := s.processedCells ++ [cells.get ⟨i, hlt⟩],
                currentCellIndex := s.currentCellIndex + 1 } := by
            have htf : cells.get ⟨i, hlt⟩ =
                transformCell api env lang inputPath (cells.get ⟨i, hlt⟩) := by
              simp only [transformCell, if_neg hm, if_neg hcode]
            have hga := Good_append api env cells lang inputPath i s hgcopy hlt
            rw [← htf] at hga
            exact hga
          by_cases hend : cells.length ≤ i + 1
          · have hend' : s.totalCells ≤ s.currentCellIndex + 1 := by
              rw [htot, hidx]
              exact hend
            have heq : routeCellProcessing s =
                ({ s with
                   processedCells := s.processedCells ++ [cells.get ⟨i, hlt⟩],
                   currentCellIndex := s.currentCellIndex + 1 },
                 Route.rebuild) := by
              simp only [routeCellProcessing, herr, errTruthy,
                Bool.false_eq_true, if_false, if_neg hnle, hget, if_neg hm,
                if_neg hcode, if_pos hend']
            simp only [runPipeline, heq]
            have hieq : i + 1 = cells.length := by omega
            rw [hieq] at hgs1
            exact hgs1
          · have hlt2 : i + 1 < cells.length := Nat.lt_of_not_le hend
            have hend' : ¬ s.totalCells ≤ s.currentCellIndex + 1 := by
              rw [htot, hidx]
              omega
            have hget2 : s.cells.get? (s.currentCellIndex + 1) =
                some (cells.get ⟨i + 1, hlt2⟩) := by
              rw [hc, hidx]
              exact List.get?_eq_get hlt2
            by_cases hm2 : (cells.get ⟨i + 1, hlt2⟩).cellType = "markdown".data
            · have heq : routeCellProcessing s =
                  ({ s with
                     processedCells := s.processedCells ++ [cells.get ⟨i, hlt⟩],
                     currentCellIndex := s.currentCellIndex + 1 },
                   Route.markdown) := by
                simp only [routeCellProcessing, herr, errTruthy,
                  Bool.false_eq_true, if_false, if_neg hnle, hget, if_neg hm,
                  if_neg hcode, if_neg hend', hget2, if_pos hm2]
              simp only [runPipeline, heq]
              exact ih (i + 2) _
                (good_step_markdown api env cells lang inputPath (i + 1) _
                  hgs1 hlt2 hm2)
                (by omega) (by omega)
            · by_cases hc2 : (cells.get ⟨i + 1, hlt2⟩).cellType = "code".data
              · have heq : routeCellProcessing s =
                    ({ s with
                       processedCells := s.processedCells ++ [cells.get ⟨i, hlt⟩],
                       currentCellIndex := s.currentCellIndex + 1 },
                     Route.code) := by
                  simp only [routeCellProcessing, herr, errTruthy,
                    Bool.false_eq_true, if_false, if_neg hnle, hget, if_neg hm,
                    if_neg hcode, if_neg hend', hget2, if_neg hm2, if_pos hc2]
                simp only [runPipeline, heq]
                exact ih (i + 2) _
                  (good_step_code api env cells lang inputPath (i + 1) _
                    hgs1 hlt2 hm2 hc2)
                  (by omega) (by omega)
              · have heq : routeCellProcessing s =
                    ({ s with
                       processedCells := s.processedCells ++ [cells.get ⟨i, hlt⟩],
                       currentCellIndex := s.currentCellIndex + 1 },
                     Route.skip) := by
                  simp only [routeCellProcessing, herr, errTruthy,
                    Bool.false_eq_true, if_false, if_neg hnle, hget, if_neg hm,
                    if_neg hcode, if_neg hend', hget2, if_neg hm2, if_neg hc2]
                simp only [runPipeline, heq]
                exact ih (i + 2) _
                  (good_step_skip api env cells lang inputPath (i + 1) _
                    hgs1 hlt2 hm2 hc2)
                  (by omega) (by omega)

/-- Claim C1: running the pipeline to completion on any document records
no error, and the output cell sequence (as rebuilt by `rebuild_notebook`)
has exactly one cell per input cell, in the same order: position `i` of
the output is the transform of position `i` of the input — no cell is
dropped, duplicated, or reordered. -/
theorem pipeline_preserves_cell_sequence (api : LLMApi) (env : ImgEnv)
    (cells : List Cell) (lang inputPath : Str) :
    (runPipeline api env (cells.length + 1)
        (initState cells lang inputPath)).errorMessage = none ∧
    (runPipeline api env (cells.length + 1)
        (initState cells lang inputPath)).processedCells =
      cells.map (transformCell api env lang inputPath) ∧
    outputCells (runPipeline api env (cells.length + 1)
        (initState cells lang inputPath)) =
      some (cells.map (transformCell api env lang inputPath)) := by
  have h := run_from_good api env cells lang inputPath (cells.length + 1) 0
    (initState cells lang inputPath)
    (Good_init api env cells lang inputPath) (Nat.zero_le _) (by omega)
  obtain ⟨_, _, _, _, herr, _, hproc⟩ := h
  have hmap : (cells.take cells.length).map
      (transformCell api env lang inputPath) =
      cells.map (transformCell api env lang inputPath) := by
    rw [List.take_length]
  refine ⟨herr, ?_, ?_⟩
  · rw [hproc, hmap]
  · unfold outputCells
    rw [herr]
    simp only [errTruthy, Bool.false_eq_true, if_false]
    rw [hproc, hmap]

/- Entries of the markdown processor's output never end in a newline. -/

theorem pySplitChar_ne_nil (sep : Char) (t : Str) : pySplitChar sep t ≠ [] := by
  cases t with
  | nil => simp [pySplitChar]
  | cons c cs =>
    simp only [pySplitChar]
    rcases pySplitChar sep cs with _ | ⟨h1, tl⟩ <;>
      by_cases hc : (c == sep) = true <;> simp [hc]

theorem pySplitChar_not_mem (sep : Char) (t : Str) :
    ∀ l ∈ pySplitChar sep t, sep ∉ l := by
  induction t with
  | nil =>
    intro l hl
    simp [pySplitChar] at hl
    subst hl
    simp
  | cons c cs ih =>
    intro l hl
    rcases hr : pySplitChar sep cs with _ | ⟨h1, tl⟩
    · exact absurd hr (pySplitChar_ne_nil sep cs)
    · simp only [pySplitChar, hr] at hl
      by_cases hc : (c == sep) = true
      · rw [if_pos hc] at hl
        rcases List.mem_cons.mp hl with rfl | hmem
        · simp
        · exact ih l (by rw [hr]; exact hmem)
      · rw [if_neg hc] at hl
        rcases List.mem_cons.mp hl with rfl | hmem
        · intro hin
          rcases List.mem_cons.mp hin with heq | hin2
          · rw [heq] at hc
            simp at hc
          · exact ih h1 (by rw [hr]; exact List.mem_cons_self h1 tl) hin2
        · exact ih l (by rw [hr]; exact List.mem_cons_of_mem h1 hmem)

theorem sectionsLoop_mem (lines : List Str) :
    ∀ cur sec l, sec ∈ sectionsLoop cur lines → l ∈ sec →
      l ∈ cur ∨ l ∈ lines := by
  induction lines with
  | nil =>
    intro cur sec l hs hl
    simp only [sectionsLoop] at hs
    by_cases hc : cur.isEmpty
    · rw [if_pos hc] at hs
      simp at hs
    · rw [if_neg hc] at hs
      simp at hs
      subst hs
      exact Or.inl hl
  | cons a t ih =>
    intro cur sec l hs hl
    simp only [sectionsLoop] at hs
    by_cases hsep : ((pyStrip a).isEmpty || pyStartsWith a ("#".data)) = true
    · rw [if_pos hsep] at hs
      rcases List.mem_append.mp hs with h1 | h2
      · by_cases hc : cur.isEmpty
        · rw [if_pos hc] at h1
          simp at h1
        · rw [if_neg hc] at h1
          simp at h1
          subst h1
          exact Or.inl hl
      · rcases ih _ sec l h2 hl with hx | hx
        · by_cases hstrip : (pyStrip a).isEmpty = true
          · rw [if_pos hstrip] at hx
            simp at hx
          · rw [if_neg hstrip] at hx
            simp at hx
            exact Or.inr (by rw [hx]; exact List.mem_cons_self a t)
        · exact Or.inr (List.mem_cons_of_mem a hx)
    · rw [if_neg hsep] at hs
      rcases ih _ sec l hs hl with hx | hx
      · rcases List.mem_append.mp hx with h1 | h2
        · exact Or.inl h1
        · simp at h2
          exact Or.inr (by rw [h2]; exact List.mem_cons_self a t)
      · exact Or.inr (List.mem_cons_of_mem a hx)

theorem sectionsLoop_nonblank (lines : List Str) :
    ∀ cur, (∀ x ∈ cur, (pyStrip x).isEmpty = false) →
      ∀ sec ∈ sectionsLoop cur lines, ∀ l ∈ sec,
        (pyStrip l).isEmpty = false := by
  induction lines with
  | nil =>
    intro cur hcur sec hs l hl
    simp only [sectionsLoop] at hs
    by_cases hc : cur.isEmpty
    · rw [if_pos hc] at hs
      simp at hs
    · rw [if_neg hc] at hs
      simp at hs
      subst hs
      exact hcur l hl
  | cons a t ih =>
    intro cur hcur sec hs l hl
    simp only [sectionsLoop] at hs
    by_cases hsep : ((pyStrip a).isEmpty || pyStartsWith a ("#".data)) = true
    · rw [if_pos hsep] at hs
      rcases List.mem_append.mp hs with h1 | h2
      · by_cases hc : cur.isEmpty
        · rw [if_pos hc] at h1
          simp at h1
        · rw [if_neg hc] at h1
          simp at h1
          subst h1
          exact hcur l hl
      · refine ih _ ?_ sec h2 l hl
        intro x hx
        by_cases hstrip : (pyStrip a).isEmpty = true
        · rw [if_pos hstrip] at hx
          simp at hx
        · rw [if_neg hstrip] at hx
          simp at hx
          rw [hx]
          simpa using hstrip
    · rw [if_neg hsep] at hs
      refine ih _ ?_ sec hs l hl
      intro x hx
      rcases List.mem_append.mp hx with h1 | h2
      · exact hcur x h1
      · simp at h2
        rw [h2]
        by_cases hstrip : (pyStrip a).isEmpty = true
        · exact absurd (by simp [hstrip]) hsep
        · simpa using hstrip

theorem pyJoin_ne_nil (sep : Str) (xs : List Str) (hxs : xs ≠ [])
    (hne : ∀ x ∈ xs, x ≠ []) : pyJoin sep xs ≠ [] := by
  match xs, hxs with
  | [x], _ => simpa [pyJoin] using hne x (by simp)
  | x :: y :: t, _ =>
    simp only [pyJoin]
    intro h
    rcases hx : x with _ | ⟨a, as⟩
    · exact hne x (by simp) hx
    · rw [hx] at h
      simp at h

theorem pyJoin_getLast?_mem (sep : Str) :
    ∀ xs : List Str, (∀ x ∈ xs, x ≠ []) → ∀ c : Char,
      (pyJoin sep xs).getLast? = some c →
      ∃ x, x ∈ xs ∧ x.getLast? = some c := by
  intro xs
  induction xs with
  | nil =>
    intro _ c h
    simp [pyJoin] at h
  | cons x t ih =>
    intro hne c h
    cases t with
    | nil => exact ⟨x, by simp, by simpa [pyJoin] using h⟩
    | cons y u =>
      simp only [pyJoin] at h
      have hrest : pyJoin sep (y :: u) ≠ [] :=
        pyJoin_ne_nil sep (y :: u) (by simp)
          (fun z hz => hne z (List.mem_cons_of_mem x hz))
      rw [List.getLast?_append] at h
      rcases hl : (pyJoin sep (y :: u)).getLast? with _ | c'
      · exact absurd (List.getLast?_eq_none_iff.mp hl) hrest
      · rw [hl, Option.or_some] at h
        injection h with h2
        rw [h2] at hl
        obtain ⟨x', hx', hlast⟩ :=
          ih (fun z hz => hne z (List.mem_cons_of_mem x hz)) c hl
        exact ⟨x', List.mem_cons_of_mem x hx', hlast⟩

theorem label_line_getLast? (label : Str) :
    ("**".data ++ label ++ "：**".data).getLast? = some '*' := by
  rw [List.getLast?_append]
  have h1 : ("：**".data).getLast? = some '*' := rfl
  rw [h1, Option.or_some]

theorem describeImage_no_nl (api : LLMApi) (b : Bytes) (lang : Str) :
    (describeImage api b lang).getLast? ≠ some '\n' := by
  unfold describeImage
  rcases api.describeResp b lang with e | co
  · show ("[Unable to generate image description: ".data ++ e ++
        "]".data).getLast? ≠ some '\n'
    rw [List.getLast?_append]
    have h1 : ("]".data).getLast? = some ']' := rfl
    rw [h1, Option.or_some]
    decide
  · rcases co with _ | c
    · decide
    · show (if c = [] then ("[Unable to generate image description]".data)
          else pyStrip c).getLast? ≠ some '\n'
      by_cases hc : c = []
      · rw [if_pos hc]
        decide
      · rw [if_neg hc]
        intro h
        exact absurd (pyStrip_getLast?_false c '\n' h) (by decide)

theorem imageBlock_cases (api : LLMApi) (env : ImgEnv) (lang inputPath : Str)
    (m : Str × Str) :
    imageBlock api env lang inputPath m = [] ∨
    ∃ b, imageBlock api env lang inputPath m =
      [[], "**".data ++ getDescriptionLabel lang ++ "：**".data,
       describeImage api b lang] := by
  unfold imageBlock
  rcases (getImageData env m.2 (some inputPath)).2 with e | b
  · exact Or.inl rfl
  · exact Or.inr ⟨b, rfl⟩

theorem translateText_cases (api : LLMApi) (text lang : Str) :
    translateText api text lang = text ∨
    ∃ c, c ≠ [] ∧ translateText api text lang = pyStrip c := by
  unfold translateText
  rcases api.translateResp text lang with e | co
  · exact Or.inl rfl
  · rcases co with _ | c
    · exact Or.inl rfl
    · by_cases hc : c = []
      · left
        show (if c = [] then text else pyStrip c) = text
        rw [if_pos hc]
      · right
        refine ⟨c, hc, ?_⟩
        show (if c = [] then text else pyStrip c) = pyStrip c
        rw [if_neg hc]

theorem markdownNewLines_no_trailing_nl (api : LLMApi) (env : ImgEnv)
    (lang inputPath : Str) (source : CellSource) :
    ∀ l ∈ markdownNewLines api env lang inputPath source,
      l.getLast? ≠ some '\n' := by
  intro l hl
  unfold markdownNewLines at hl
  rw [List.mem_flatten] at hl
  obtain ⟨out, hout, hlout⟩ := hl
  rw [List.mem_map] at hout
  obtain ⟨sec, hsec, rfl⟩ := hout
  have hsec_lines : ∀ x ∈ sec, x ∈ pySplitChar '\n' (joinSource source) := by
    intro x hx
    rcases sectionsLoop_mem _ [] sec x hsec hx with h | h
    · simp at h
    · exact h
  have hsec_nonblank : ∀ x ∈ sec, (pyStrip x).isEmpty = false :=
    fun x hx =>
      sectionsLoop_nonblank _ [] (by intro y hy; simp at hy) sec hsec x hx
  have hsec_nonnil : ∀ x ∈ sec, x ≠ [] := by
    intro x hx he
    have h := hsec_nonblank x hx
    rw [he] at h
    exact absurd h (by decide)
  have hsec_no_nl : ∀ x ∈ sec, '\n' ∉ x :=
    fun x hx => pySplitChar_not_mem '\n' _ x (hsec_lines x hx)
  have hst : ∀ c, (pyJoin ("\n".data) sec).getLast? = some c → c ≠ '\n' := by
    intro c hc heq
    subst heq
    obtain ⟨x, hx, hlast⟩ := pyJoin_getLast?_mem ("\n".data) sec hsec_nonnil _ hc
    exact hsec_no_nl x hx (List.mem_of_getLast?_eq_some hlast)
  simp only [sectionOut] at hlout
  by_cases hse : sec.isEmpty
  · rw [if_pos hse] at hlout
    simp at hlout
  · rw [if_neg hse] at hlout
    rcases List.mem_append.mp hlout with h123 | hnil
    · rcases List.mem_append.mp h123 with h12 | h3
      · rcases List.mem_append.mp h12 with h1 | h2
        · intro hlast
          exact hsec_no_nl l h1 (List.mem_of_getLast?_eq_some hlast)
        · rw [List.mem_flatten] at h2
          obtain ⟨blk, hblk, hlblk⟩ := h2
          rw [List.mem_map] at hblk
          obtain ⟨m, _, rfl⟩ := hblk
          rcases imageBlock_cases api env lang inputPath m with hz | ⟨b, hz⟩
          · rw [hz] at hlblk
            simp at hlblk
          · rw [hz] at hlblk
            rcases List.mem_cons.mp hlblk with rfl | hlblk2
            · simp
            · rcases List.mem_cons.mp hlblk2 with rfl | hlblk3
              · rw [label_line_getLast?]
                decide
              · rcases List.mem_cons.mp hlblk3 with rfl | hlblk4
                · exact describeImage_no_nl api b lang
                · simp at hlblk4
      · by_cases hcond :
          (sec.any fun x =>
            !(pyStrip x).isEmpty && !pyStartsWith x ("!".data)) = true
        · rw [if_pos hcond] at h3
          rcases List.mem_cons.mp h3 with rfl | h32
          · simp
          · rcases List.mem_cons.mp h32 with rfl | h33
            · rw [label_line_getLast?]
              decide
            · rcases List.mem_cons.mp h33 with rfl | h34
              · rcases translateText_cases api (pyJoin ("\n".data) sec) lang
                  with he | ⟨c, hc, he⟩
                · rw [he]
                  intro h
                  exact hst '\n' h rfl
                · rw [he]
                  intro h
                  exact absurd (pyStrip_getLast?_false c '\n' h) (by decide)
              · simp at h34
        · rw [if_neg hcond] at h3
          simp at h3
    · simp at hnil
      subst hnil
      simp

/-- Claim C10: a markdown cell processed at a valid index is appended with
its source replaced by a list of line strings, and no entry of that list
ends with a newline character — the input representation is never kept
for markdown cells. -/
theorem markdown_source_becomes_line_list (api : LLMApi) (env : ImgEnv)
    (s : AgentState) (c : Cell)
    (hget : s.cells.get? s.currentCellIndex = some c)
    (htype : c.cellType = "markdown".data) :
    ∃ L : List Str,
      (processMarkdownCell api env s).processedCells =
        s.processedCells ++ [{ c with source := CellSource.lines L }] ∧
      ∀ l ∈ L, l.getLast? ≠ some '\n' := by
  refine ⟨markdownNewLines api env s.targetLanguage s.inputPath c.source,
    ?_, markdownNewLines_no_trailing_nl api env _ _ _⟩
  rw [processMarkdownCell_eq api env s c hget htype]
  rfl

/-- Witness for the markdown line-list theorem on a concrete one-cell
state. -/
def c10state : AgentState :=
  initState [{ cellType := "markdown".data, source := .text ("hi\nthere".data) }]
    ("Chinese".data) ("nb.ipynb".data)

/-- Witness instantiating the markdown line-list theorem. -/
theorem markdown_source_becomes_line_list_witness :
    ∃ L : List Str,
      (processMarkdownCell noApi emptyEnv c10state).processedCells =
        c10state.processedCells ++
          [{ cellType := "markdown".data, source := CellSource.lines L }] ∧
      ∀ l ∈ L, l.getLast? ≠ some '\n' :=
  markdown_source_becomes_line_list noApi emptyEnv c10state
    { cellType := "markdown".data, source := .text ("hi\nthere".data) }
    (by rfl) (by rfl)

/- Empty markdown cells. -/

/-- A markdown cell whose source is the empty string. -/
def c9cellText : Cell := { cellType := "markdown".data, source := .text [] }

/-- A markdown cell whose source is the empty list of lines. -/
def c9cellLines : Cell := { cellType := "markdown".data, source := .lines [] }

/-- Claim C9 is false as stated for the empty-string case: the processed
cell's source is the empty list of lines, not the original empty string —
the source field does not pass through unchanged. -/
theorem empty_markdown_counterexample :
    (processMarkdownCell noApi emptyEnv
        (initState [c9cellText] [] [])).processedCells =
      [{ cellType := "markdown".data, source := CellSource.lines [] }] ∧
    CellSource.lines [] ≠ c9cellText.source := by
  refine ⟨by decide, by decide⟩

/-- Claim C9 (amended): a markdown cell with an empty source (empty string
or empty line list) produces no sections and no content; its source
becomes the empty list of lines — unchanged when it already was the empty
list, representation-normalized when it was the empty string. -/
theorem empty_markdown_amended (api : LLMApi) (env : ImgEnv) (s : AgentState)
    (c : Cell) (hget : s.cells.get? s.currentCellIndex = some c)
    (htype : c.cellType = "markdown".data)
    (hsrc : c.source = CellSource.lines [] ∨ c.source = CellSource.text []) :
    groupSections (pySplitChar '\n' (joinSource c.source)) = [] ∧
    (processMarkdownCell api env s).processedCells =
      s.processedCells ++ [{ c with source := CellSource.lines [] }] ∧
    (c.source = CellSource.lines [] →
      (processMarkdownCell api env s).processedCells =
        s.processedCells ++ [c]) := by
  have hjoin : joinSource c.source = [] := by
    rcases hsrc with h | h <;> rw [h] <;> rfl
  have hnl : markdownNewLines api env s.targetLanguage s.inputPath c.source =
      [] := by
    unfold markdownNewLines
    rw [hjoin]
    rfl
  refine ⟨by rw [hjoin]; rfl, ?_, ?_⟩
  · rw [processMarkdownCell_eq api env s c hget htype]
    unfold markdownTransform
    rw [hnl]
  · intro hsl
    rw [processMarkdownCell_eq api env s c hget htype]
    unfold markdownTransform
    rw [hnl, ← hsl]

/-- Witness for the empty-markdown theorem on the empty-list cell. -/
theorem empty_markdown_amended_witness :
    groupSections (pySplitChar '\n' (joinSource c9cellLines.source)) = [] ∧
    (processMarkdownCell noApi emptyEnv
        (initState [c9cellLines] [] [])).processedCells =
      (initState [c9cellLines] [] []).processedCells ++
        [{ c9cellLines with source := CellSource.lines [] }] ∧
    (c9cellLines.source = CellSource.lines [] →
      (processMarkdownCell noApi emptyEnv
          (initState [c9cellLines] [] [])).processedCells =
        (initState [c9cellLines] [] []).processedCells ++ [c9cellLines]) :=
  empty_markdown_amended noApi emptyEnv (initState [c9cellLines] [] [])
    c9cellLines (by rfl) (by rfl) (Or.inl (by rfl))

/- Image reference resolution. -/

/-- A world whose every HTTP fetch answers with status 304 and a one-byte
body. -/
def env304 : ImgEnv where
  fsRead := fun _ => none
  httpGet := fun _ => some { status := 304, content := [7] }
  b64decode := fun _ => none
  absDir := fun _ => []

/-- Claim C4 is false as stated on the non-2xx clause: a fetch that
answers 304 (not a 2xx status) is returned as success by
`raise_for_status`, which only fails on 4xx and 5xx — the resolution does
not fail. -/
theorem image_http_non2xx_counterexample :
    (getImageData env304 ("http://img.example/a.png".data) none).2 =
      Except.ok [7] ∧
    env304.httpGet ("http://img.example/a.png".data) =
      some { status := 304, content := [7] } ∧
    ∀ e, (getImageData env304 ("http://img.example/a.png".data) none).2 ≠
      Except.error e := by
  refine ⟨by rfl, by rfl, ?_⟩
  intro e h
  rw [show (getImageData env304 ("http://img.example/a.png".data) none).2 =
      Except.ok [7] from by rfl] at h
  cases h

/-- Claim C4 (amended): image reference resolution dispatches
first-match-wins.  An embedded `data:image/` reference performs no network
or filesystem access and succeeds exactly by base64-decoding the chunk
after the first comma.  An `http(s)://` reference performs exactly one
fetch with a 30-second timeout; a 4xx or 5xx status (or a raised fetch)
fails, any other status is returned as success.  Any other reference is
tried as a filesystem path as given, then — when a source document path is
known — relative to that document's directory (a path missing absolutely
but present relative to that directory resolves successfully); when both
are absent the error names the reference and the notebook directory. -/
theorem image_resolution_dispatch_amended (env : ImgEnv) (src : Str)
    (ip : Option Str) :
    (pyStartsWith src ("data:image/".data) = true →
      (getImageData env src ip).1 = [] ∧
      ∀ b, (getImageData env src ip).2 = Except.ok b →
        ∃ pre payload rest, pySplitChar ',' src = pre :: payload :: rest ∧
          env.b64decode payload = some b) ∧
    (pyStartsWith src ("data:image/".data) = false →
      (pyStartsWith src ("http://".data) ||
        pyStartsWith src ("https://".data)) = true →
      (getImageData env src ip).1 = [Access.net src 30] ∧
      (env.httpGet src = none →
        ∃ e, (getImageData env src ip).2 = Except.error e) ∧
      (∀ r, env.httpGet src = some r → 400 ≤ r.status → r.status < 600 →
        ∃ e, (getImageData env src ip).2 = Except.error e) ∧
      (∀ r, env.httpGet src = some r → r.status < 400 ∨ 600 ≤ r.status →
        (getImageData env src ip).2 = Except.ok r.content)) ∧
    (pyStartsWith src ("data:image/".data) = false →
      pyStartsWith src ("http://".data) = false →
      pyStartsWith src ("https://".data) = false →
      (∀ b, env.fsRead src = some b →
        getImageData env src ip = ([Access.file src], Except.ok b)) ∧
      (∀ p b, ip = some p → env.fsRead src = none →
        env.fsRead (pyJoinPath (env.absDir p) src) = some b →
        getImageData env src ip =
          ([Access.file src, Access.file (pyJoinPath (env.absDir p) src)],
           Except.ok b)) ∧
      (∀ p, ip = some p → env.fsRead src = none →
        env.fsRead (pyJoinPath (env.absDir p) src) = none →
        getImageData env src ip =
          ([Access.file src, Access.file (pyJoinPath (env.absDir p) src)],
           Except.error ("Image file not found: ".data ++ src ++
             " (tried absolute and relative to ".data ++ env.absDir p ++
             ")".data))) ∧
      (ip = none → env.fsRead src = none →
        getImageData env src ip =
          ([Access.file src],
           Except.error ("Image file not found: ".data ++ src)))) := by
  refine ⟨?_, ?_, ?_⟩
  · intro hdata
    rcases hsp : pySplitChar ',' src with _ | ⟨pre, rest⟩
    · exact absurd hsp (pySplitChar_ne_nil ',' src)
    · rcases rest with _ | ⟨payload, rest2⟩
      · have heq : getImageData env src ip =
            ([], Except.error ("IndexError: list index out of range".data)) := by
          simp only [getImageData, hdata, if_true, hsp]
        rw [heq]
        exact ⟨rfl, fun b hb => by cases hb⟩
      · rcases hb : env.b64decode payload with _ | b
        · have heq : getImageData env src ip =
              ([], Except.error ("binascii.Error: invalid base64".data)) := by
            simp only [getImageData, hdata, if_true, hsp, hb]
          rw [heq]
          exact ⟨rfl, fun b' hb2 => by cases hb2⟩
        · have heq : getImageData env src ip = ([], Except.ok b) := by
            simp only [getImageData, hdata, if_true, hsp, hb]
          rw [heq]
          refine ⟨rfl, fun b' hb2 => ?_⟩
          cases hb2
          exact ⟨pre, payload, rest2, rfl, hb⟩
  · intro hdata hhttp
    rcases hh : env.httpGet src with _ | r
    · have heq : getImageData env src ip =
          ([Access.net src 30], Except.error ("requests exception".data)) := by
        simp only [getImageData, hdata, Bool.false_eq_true, if_false, hhttp,
          if_true, hh]
      rw [heq]
      refine ⟨rfl, fun _ => ⟨_, rfl⟩, ?_, ?_⟩
      · intro r hr
        cases hr
      · intro r hr
        cases hr
    · by_cases hstat : 400 ≤ r.status ∧ r.status < 600
      · have heq : getImageData env src ip =
            ([Access.net src 30],
             Except.error ("requests.exceptions.HTTPError".data)) := by
          simp only [getImageData, hdata, Bool.false_eq_true, if_false, hhttp,
            if_true, hh, if_pos hstat]
        rw [heq]
        refine ⟨rfl, ?_, ?_, ?_⟩
        · intro habs
          cases habs
        · intro r' _ _ _
          exact ⟨_, rfl⟩
        · intro r' hr hout
          cases hr
          obtain ⟨hs1, hs2⟩ := hstat
          rcases hout with h | h <;> omega
      · have heq : getImageData env src ip =
            ([Access.net src 30], Except.ok r.content) := by
          simp only [getImageData, hdata, Bool.false_eq_true, if_false, hhttp,
            if_true, hh, if_neg hstat]
        rw [heq]
        refine ⟨rfl, ?_, ?_, ?_⟩
        · intro habs
          cases habs
        · intro r' hr h1 h2
          cases hr
          exact absurd ⟨h1, h2⟩ hstat
        · intro r' hr _
          cases hr
          rfl
  · intro hdata hh1 hh2
    have hor : (pyStartsWith src ("http://".data) ||
        pyStartsWith src ("https://".data)) = false := by
      rw [hh1, hh2]
      rfl
    refine ⟨?_, ?_, ?_, ?_⟩
    · intro b hb
      simp only [getImageData, hdata, Bool.false_eq_true, if_false, hor, hb]
    · intro p b hip habs hrel
      subst hip
      simp only [getImageData, hdata, Bool.false_eq_true, if_false, hor,
        habs, hrel]
    · intro p hip habs hrel
      subst hip
      simp only [getImageData, hdata, Bool.false_eq_true, if_false, hor,
        habs, hrel]
    · intro hip habs
      subst hip
      simp only [getImageData, hdata, Bool.false_eq_true, if_false, hor, habs]

/-- A world holding the image only relative to the notebook directory. -/
def envRel : ImgEnv where
  fsRead := fun p => if p = ("/nb/imgs/a.png".data) then some [1, 2] else none
  httpGet := fun _ => none
  b64decode := fun _ => none
  absDir := fun _ => "/nb".data

/-- Witness for the dispatch theorem: a path missing absolutely but
present relative to the notebook directory resolves successfully. -/
theorem image_resolution_dispatch_amended_witness :
    getImageData envRel ("imgs/a.png".data) (some ("/nb/x.ipynb".data)) =
      ([Access.file ("imgs/a.png".data), Access.file ("/nb/imgs/a.png".data)],
       Except.ok [1, 2]) := by
  have h := (image_resolution_dispatch_amended envRel ("imgs/a.png".data)
    (some ("/nb/x.ipynb".data))).2.2 (by decide) (by decide) (by decide)
  have h2 := h.2.1 ("/nb/x.ipynb".data) [1, 2] rfl (by decide) (by decide)
  have h3 : pyJoinPath (envRel.absDir ("/nb/x.ipynb".data))
      ("imgs/a.png".data) = "/nb/imgs/a.png".data := by decide
  rw [h3] at h2
  exact h2

end NBT
